import Mathlib

/-!
Verification development for the moviecreator extraction pipeline
(`src/extraction/story_bible_extractor.py`, `src/extraction/checkpoint.py`,
`src/screenplay/converter.py`, `src/screenplay/scene_breakdown.py`).

Python strings are modelled as `List Char`; Python string primitives
(`in`, `find`, `rfind`, `split`, `strip`, slicing) are translated below
with Python semantics.  `json.loads` / serialization are modelled by an
executable JSON parser and serializer over a deep JSON value type.
-/

abbrev Chars := List Char

/-- Backtick, written via its code point. -/
def btChar : Char := Char.ofNat 96

/-- Opening curly brace character. -/
def obrChar : Char := Char.ofNat 123

/-- Closing curly brace character. -/
def cbrChar : Char := Char.ofNat 125

/-- Whitespace stripped by Python `str.strip()` (ASCII part). -/
def pySpace (c : Char) : Bool :=
  c = ' ' || c = '\t' || c = '\n' || c = '\r' || c.toNat = 11 || c.toNat = 12

/-- Whitespace accepted between JSON tokens by `json.loads`. -/
def jsonWs (c : Char) : Bool :=
  c = ' ' || c = '\t' || c = '\n' || c = '\r'

/-- ASCII decimal digit test. -/
def isDigitC (c : Char) : Bool :=
  48 ≤ c.toNat && c.toNat ≤ 57

/-- Python `str.find(ch)`: index of the first occurrence, `none` for Python's `-1`. -/
def findChar (t : Chars) (ch : Char) : Option Nat :=
  match t with
  | [] => none
  | c :: r => if c = ch then some 0 else (findChar r ch).map (· + 1)

/-- Python `str.rfind(ch)`: index of the last occurrence, `none` for Python's `-1`. -/
def rfindChar (t : Chars) (ch : Char) : Option Nat :=
  match t with
  | [] => none
  | c :: r =>
    match rfindChar r ch with
    | some i => some (i + 1)
    | none => if c = ch then some 0 else none

/-- Python slice `t[a:b]` (for `0 ≤ a`, `0 ≤ b`). -/
def pySlice (t : Chars) (a b : Nat) : Chars :=
  (t.drop a).take (b - a)

/-- Python `str.strip()`. -/
def pyStrip (t : Chars) : Chars :=
  ((t.dropWhile pySpace).reverse.dropWhile pySpace).reverse

/-- Python `sub in s` (substring containment). -/
def containsSub (sep : Chars) : Chars → Bool
  | [] => List.isPrefixOf sep []
  | x :: xs => List.isPrefixOf sep (x :: xs) || containsSub sep xs

/-- Worker for Python `str.split(sep)` with a non-empty separator.  The fuel
argument makes the recursion structural; `fuel ≥ t.length` always suffices. -/
def splitAux (sep : Chars) : Nat → Chars → Chars → List Chars
  | _, [], acc => [acc.reverse]
  | 0, x :: xs, acc => [acc.reverse ++ (x :: xs)]
  | fuel + 1, x :: xs, acc =>
    if List.isPrefixOf sep (x :: xs) then
      acc.reverse :: splitAux sep fuel (xs.drop (sep.length - 1)) []
    else
      splitAux sep fuel xs (x :: acc)

/-- Python `str.split(sep)` for a non-empty separator `sep`. -/
def splitOnSub (sep t : Chars) : List Chars :=
  if sep.isEmpty then [t] else splitAux sep t.length t []

theorem splitAux_nil (sep acc : Chars) (fuel : Nat) :
    splitAux sep fuel [] acc = [acc.reverse] := by
  cases fuel <;> rfl

theorem splitAux_cons_pos (sep acc : Chars) (fuel : Nat) (x : Char) (xs : Chars)
    (h : List.isPrefixOf sep (x :: xs) = true) :
    splitAux sep (fuel + 1) (x :: xs) acc =
      acc.reverse :: splitAux sep fuel (xs.drop (sep.length - 1)) [] := by
  rw [splitAux]
  simp [h]

theorem splitAux_cons_neg (sep acc : Chars) (fuel : Nat) (x : Char) (xs : Chars)
    (h : ¬ List.isPrefixOf sep (x :: xs) = true) :
    splitAux sep (fuel + 1) (x :: xs) acc = splitAux sep fuel xs (x :: acc) := by
  rw [splitAux]
  simp [h]

/-- The result of `splitAux` does not depend on the fuel, given enough of it. -/
theorem splitAux_fuel_irrel (sep : Chars) : ∀ (n : Nat) (t : Chars) (f1 f2 : Nat) (acc : Chars),
    t.length ≤ n → t.length ≤ f1 → t.length ≤ f2 →
    splitAux sep f1 t acc = splitAux sep f2 t acc := by
  intro n
  induction n with
  | zero =>
    intro t f1 f2 acc hn _ _
    have : t = [] := List.length_eq_zero.mp (Nat.le_zero.mp hn)
    subst this
    rw [splitAux_nil, splitAux_nil]
  | succ n ih =>
    intro t f1 f2 acc hn h1 h2
    cases t with
    | nil => rw [splitAux_nil, splitAux_nil]
    | cons x xs =>
      simp only [List.length_cons] at hn h1 h2
      obtain ⟨g1, rfl⟩ : ∃ g1, f1 = g1 + 1 := ⟨f1 - 1, by omega⟩
      obtain ⟨g2, rfl⟩ : ∃ g2, f2 = g2 + 1 := ⟨f2 - 1, by omega⟩
      by_cases hp : List.isPrefixOf sep (x :: xs) = true
      · rw [splitAux_cons_pos sep acc g1 x xs hp, splitAux_cons_pos sep acc g2 x xs hp]
        have hd : (xs.drop (sep.length - 1)).length ≤ xs.length := by
          simp [List.length_drop]
        exact congrArg _ (ih _ g1 g2 [] (by omega) (by omega) (by omega))
      · rw [splitAux_cons_neg sep acc g1 x xs hp, splitAux_cons_neg sep acc g2 x xs hp]
        exact ih xs g1 g2 (x :: acc) (by omega) (by omega) (by omega)

/-- If the separator occurs nowhere, Python `split` returns the whole string. -/
theorem splitAux_of_not_contains (sep : Chars) :
    ∀ (t : Chars) (fuel : Nat) (acc : Chars), t.length ≤ fuel →
      containsSub sep t = false → splitAux sep fuel t acc = [acc.reverse ++ t] := by
  intro t
  induction t with
  | nil => intro fuel acc _ _; simp [splitAux_nil]
  | cons x xs ih =>
    intro fuel acc hf h
    simp only [containsSub, Bool.or_eq_false_iff] at h
    simp only [List.length_cons] at hf
    obtain ⟨g, rfl⟩ : ∃ g, fuel = g + 1 := ⟨fuel - 1, by omega⟩
    rw [splitAux_cons_neg sep acc g x xs (by simp [h.1])]
    rw [ih g (x :: acc) (by omega) h.2]
    simp

theorem splitOnSub_of_not_contains (sep t : Chars) (hne : sep ≠ [])
    (h : containsSub sep t = false) : splitOnSub sep t = [t] := by
  unfold splitOnSub
  rw [if_neg (by simpa using hne)]
  simpa using splitAux_of_not_contains sep t t.length [] le_rfl h

theorem containsSub_cons (sep : Chars) (x : Char) (xs : Chars) :
    containsSub sep (x :: xs) = (List.isPrefixOf sep (x :: xs) || containsSub sep xs) := rfl

/-- `containsSub` characterised by a decomposition of the string. -/
theorem containsSub_iff (sep t : Chars) :
    containsSub sep t = true ↔ ∃ a b, t = a ++ (sep ++ b) := by
  induction t with
  | nil =>
    simp only [containsSub, List.isPrefixOf_iff_prefix, List.prefix_nil]
    constructor
    · intro h; exact ⟨[], [], by simp [h]⟩
    · rintro ⟨a, b, h⟩
      rcases List.append_eq_nil.mp h.symm with ⟨ha, hrest⟩
      rcases List.append_eq_nil.mp hrest with ⟨hs, _⟩
      exact hs
  | cons x xs ih =>
    simp only [containsSub, Bool.or_eq_true, List.isPrefixOf_iff_prefix, ih]
    constructor
    · rintro (h | ⟨a, b, rfl⟩)
      · obtain ⟨b, hb⟩ := h
        exact ⟨[], b, by simp [hb.symm]⟩
      · exact ⟨x :: a, b, by simp⟩
    · rintro ⟨a, b, hab⟩
      match a, hab with
      | [], hab => exact Or.inl ⟨b, by simpa using hab.symm⟩
      | a0 :: a', hab =>
        simp only [List.cons_append, List.cons.injEq] at hab
        exact Or.inr ⟨a', b, hab.2⟩

/-- If a longer pattern occurs, so does each of its prefixes. -/
theorem containsSub_mono (s1 s2 t : Chars) (h : containsSub (s1 ++ s2) t = true) :
    containsSub s1 t = true := by
  rw [containsSub_iff] at h ⊢
  obtain ⟨a, b, rfl⟩ := h
  exact ⟨a, s2 ++ b, by simp⟩

/-- Appending a character that is not in the separator cannot create an occurrence. -/
theorem containsSub_append_single (sep t : Chars) (c : Char)
    (ht : containsSub sep t = false) (hc : c ∉ sep) :
    containsSub sep (t ++ [c]) = false := by
  by_contra hcon
  rw [Bool.not_eq_false, containsSub_iff] at hcon
  obtain ⟨a, b, hab⟩ := hcon
  rcases List.eq_nil_or_concat' b with rfl | ⟨b', y, rfl⟩
  · rcases List.eq_nil_or_concat' sep with rfl | ⟨s', z, rfl⟩
    · cases t <;> simp [containsSub, List.isPrefixOf] at ht
    · rw [List.append_nil, ← List.append_assoc] at hab
      have h2 := List.append_inj_right' hab rfl
      simp only [List.cons.injEq] at h2
      exact hc (by simp [h2.1])
  · rw [show a ++ (sep ++ (b' ++ [y])) = (a ++ (sep ++ b')) ++ [y] by simp] at hab
    have h1 := List.append_inj_left' hab rfl
    have : containsSub sep t = true := (containsSub_iff sep t).mpr ⟨a, b', h1⟩
    rw [ht] at this
    exact Bool.false_ne_true this

/-- A prefix of an append splits at the junction. -/
theorem prefix_append_cases (sep u v : Chars) (h : sep <+: u ++ v) :
    sep <+: u ∨ u <+: sep := by
  rcases le_or_lt sep.length u.length with hle | hlt
  · left
    rw [List.prefix_iff_eq_take] at h ⊢
    rw [h, List.take_append_eq_append_take, Nat.sub_eq_zero_of_le hle]
    simp [List.take_take, Nat.min_eq_left hle, h.symm]
  · right
    rw [List.prefix_iff_eq_take] at h
    rw [List.take_append_eq_append_take, List.take_of_length_le (Nat.le_of_lt hlt)] at h
    exact ⟨_, h.symm⟩

/-- Python `split` at a leftmost separator occurrence: if `sep` (all backticks) does not
occur in `a` and `a` does not end in a backtick, splitting `a ++ sep ++ b` yields `a`
followed by the splitting of `b`. -/
theorem splitAux_first_occ (sep : Chars) (hall : ∀ c ∈ sep, c = btChar) (hne : sep ≠ []) :
    ∀ (a : Chars), containsSub sep a = false →
      (∀ (h : a ≠ []), a.getLast h ≠ btChar) →
      ∀ (b acc : Chars) (fuel : Nat), (a ++ (sep ++ b)).length ≤ fuel →
        splitAux sep fuel (a ++ (sep ++ b)) acc =
          (acc.reverse ++ a) :: splitAux sep b.length b [] := by
  intro a
  induction a with
  | nil =>
    intro _ _ b acc fuel hf
    obtain ⟨s0, s', rfl⟩ : ∃ s0 s', sep = s0 :: s' := by
      cases sep with
      | nil => exact absurd rfl hne
      | cons s0 s' => exact ⟨s0, s', rfl⟩
    simp only [List.nil_append, List.length_append, List.length_cons] at hf ⊢
    obtain ⟨g, rfl⟩ : ∃ g, fuel = g + 1 := ⟨fuel - 1, by omega⟩
    rw [show (s0 :: s') ++ b = s0 :: (s' ++ b) from rfl]
    rw [splitAux_cons_pos _ _ g _ _ (by
      rw [List.isPrefixOf_iff_prefix]
      exact List.prefix_append (s0 :: s') b)]
    have hdrop : List.drop ((s0 :: s').length - 1) (s' ++ b) = b := by
      rw [show (s0 :: s').length - 1 = s'.length by simp, List.drop_left]
    rw [hdrop]
    rw [splitAux_fuel_irrel (s0 :: s') b.length b g b.length [] le_rfl (by omega) le_rfl]
    simp
  | cons x a' ih =>
    intro hcon hlast b acc fuel hf
    have hconx : ¬ List.isPrefixOf sep (x :: a') = true := by
      intro hp
      have : containsSub sep (x :: a') = true := by
        unfold containsSub
        rw [hp, Bool.true_or]
      rw [hcon] at this
      exact Bool.false_ne_true this
    have hnp : ¬ List.isPrefixOf sep ((x :: a') ++ (sep ++ b)) = true := by
      intro hp
      rw [List.isPrefixOf_iff_prefix] at hp
      rcases prefix_append_cases sep (x :: a') (sep ++ b) hp with hpre | hpre
      · exact hconx (List.isPrefixOf_iff_prefix.mpr hpre)
      · have hmem : (x :: a').getLast (by simp) ∈ sep :=
          hpre.subset (List.getLast_mem (by simp))
        exact hlast (by simp) (hall _ hmem)
    simp only [List.cons_append, List.length_cons] at hf hnp ⊢
    obtain ⟨g, rfl⟩ : ∃ g, fuel = g + 1 := ⟨fuel - 1, by omega⟩
    rw [splitAux_cons_neg _ _ g _ _ hnp]
    have hcon' : containsSub sep a' = false := by
      have h := hcon
      rw [containsSub_cons, Bool.or_eq_false_iff] at h
      exact h.2
    have hlast' : ∀ (h : a' ≠ []), a'.getLast h ≠ btChar := by
      intro h
      have := hlast (by simp)
      rwa [List.getLast_cons h] at this
    have := ih hcon' hlast' b (x :: acc) g (by simp at hf ⊢; omega)
    rw [this]
    simp

/-- `splitOnSub` at the leftmost occurrence of an all-backtick separator. -/
theorem splitOnSub_first_occ (sep : Chars) (hall : ∀ c ∈ sep, c = btChar) (hne : sep ≠ [])
    (a : Chars) (hcon : containsSub sep a = false)
    (hlast : ∀ (h : a ≠ []), a.getLast h ≠ btChar) (b : Chars) :
    splitOnSub sep (a ++ (sep ++ b)) = a :: splitOnSub sep b := by
  unfold splitOnSub
  rw [if_neg (by simpa using hne), if_neg (by simpa using hne)]
  simpa using
    splitAux_first_occ sep hall hne a hcon hlast b [] (a ++ (sep ++ b)).length le_rfl

/-- `splitOnSub` when the text begins with the separator and has no further
occurrence of it. -/
theorem splitOnSub_prefix (sep b : Chars) (hne : sep ≠ [])
    (hcb : containsSub sep b = false) :
    splitOnSub sep (sep ++ b) = [[], b] := by
  unfold splitOnSub
  rw [if_neg (by simpa using hne)]
  obtain ⟨s0, s', rfl⟩ : ∃ s0 s', sep = s0 :: s' := by
    cases sep with
    | nil => exact absurd rfl hne
    | cons s0 s' => exact ⟨s0, s', rfl⟩
  have hlen : ((s0 :: s') ++ b).length = (s' ++ b).length + 1 := by simp
  rw [show (s0 :: s') ++ b = s0 :: (s' ++ b) from rfl] at hlen ⊢
  rw [hlen]
  rw [splitAux_cons_pos _ _ (s' ++ b).length _ _ (by
    rw [List.isPrefixOf_iff_prefix]
    exact List.prefix_append (s0 :: s') b)]
  have hdrop : List.drop ((s0 :: s').length - 1) (s' ++ b) = b := by
    rw [show (s0 :: s').length - 1 = s'.length by simp, List.drop_left]
  rw [hdrop]
  rw [splitAux_of_not_contains (s0 :: s') b (s' ++ b).length [] (by simp) hcb]
  simp

/-- If `sep` (all backticks) does not occur in `u` and `u` does not end in a backtick,
then the only occurrence of `sep` in `u ++ sep` is the final one. -/
theorem trailing_occ_unique (sep u a c : Chars) (hall : ∀ ch ∈ sep, ch = btChar)
    (hne : sep ≠ [])
    (hcon : containsSub sep u = false)
    (hlast : ∀ (h : u ≠ []), u.getLast h ≠ btChar)
    (heq : u ++ sep = a ++ (sep ++ c)) : c = [] := by
  by_contra hc
  have hlen : u.length = a.length + c.length := by
    have := congrArg List.length heq
    simp at this
    omega
  have hclen : 0 < c.length := List.length_pos.mpr hc
  have halen : a.length < u.length := by omega
  rcases le_or_lt (a.length + sep.length) u.length with hle | hlt
  · -- the occurrence lies entirely inside u
    have htake := congrArg (List.take u.length) heq
    rw [List.take_left] at htake
    rw [List.take_append_eq_append_take, List.take_of_length_le (by omega),
      List.take_append_eq_append_take, List.take_of_length_le (by omega)] at htake
    have : containsSub sep u = true := (containsSub_iff sep u).mpr ⟨a, _, htake⟩
    rw [hcon] at this
    exact Bool.false_ne_true this
  · -- the occurrence overlaps the final copy of sep: u then ends in a backtick
    have hune : u ≠ [] := by
      intro h
      rw [h] at halen
      simp at halen
    have hupos : 0 < u.length := List.length_pos.mpr hune
    have h1 : (u ++ sep)[u.length - 1]? = some (u.getLast hune) := by
      rw [List.getElem?_append, if_pos (by omega)]
      rw [List.getElem?_eq_getElem (by omega)]
      exact congrArg some (List.getLast_eq_getElem ..).symm
    rw [heq] at h1
    rw [List.getElem?_append_right (by omega)] at h1
    rw [List.getElem?_append, if_pos (by omega)] at h1
    rw [List.getElem?_eq_getElem (by omega)] at h1
    rw [Option.some_inj] at h1
    have hmem : u.getLast hune ∈ sep := h1 ▸ List.getElem_mem _
    exact hlast hune (hall _ hmem)

/-- Python `strip` of a string wrapped in single newlines, whose core neither starts
nor ends with whitespace, recovers the core. -/
theorem pyStrip_newline_wrap (s0 : Char) (S' : Chars)
    (hhead : pySpace s0 = false)
    (hlast : pySpace ((s0 :: S').getLast (by simp)) = false) :
    pyStrip ('\n' :: ((s0 :: S') ++ ['\n'])) = s0 :: S' := by
  unfold pyStrip
  have h1 : List.dropWhile pySpace ('\n' :: ((s0 :: S') ++ ['\n'])) = (s0 :: S') ++ ['\n'] := by
    rw [List.dropWhile_cons, if_pos (by decide)]
    rw [show (s0 :: S') ++ ['\n'] = s0 :: (S' ++ ['\n']) from rfl]
    rw [List.dropWhile_cons, if_neg (by simp [hhead])]
  rw [h1]
  have h2 : ((s0 :: S') ++ ['\n']).reverse = '\n' :: (s0 :: S').reverse := by
    rw [List.reverse_append]
    rfl
  rw [h2, List.dropWhile_cons, if_pos (by decide)]
  have hrne : (s0 :: S').reverse ≠ [] := by simp
  obtain ⟨a, t, hrev⟩ : ∃ a t, (s0 :: S').reverse = a :: t := by
    cases hr : (s0 :: S').reverse with
    | nil => exact absurd hr hrne
    | cons a t => exact ⟨a, t, rfl⟩
  have hah : a = (s0 :: S').getLast (by simp) := by
    have hsome : (s0 :: S').getLast? = some a := by
      rw [← List.head?_reverse, hrev]
      rfl
    have hsome2 : (s0 :: S').getLast? = some ((s0 :: S').getLast (by simp)) :=
      List.getLast?_eq_getLast ..
    rw [hsome] at hsome2
    exact Option.some_inj.mp hsome2
  rw [hrev, List.dropWhile_cons, if_neg (by rw [hah]; simp [hlast])]
  rw [← hrev, List.reverse_reverse]

/-! ## JSON values

A deep model of the JSON values handled by Python's `json` module (numbers
restricted to integers).  `serJson` models `json.dumps` with compact
separators; `jsonParse` models `json.loads`. -/

mutual
inductive Json where
  | null : Json
  | bool (b : Bool) : Json
  | num (n : Int) : Json
  | str (s : Chars) : Json
  | arr (a : JsonArr) : Json
  | obj (o : JsonObj) : Json
  deriving DecidableEq
inductive JsonArr where
  | nil : JsonArr
  | cons (hd : Json) (tl : JsonArr) : JsonArr
  deriving DecidableEq
inductive JsonObj where
  | nil : JsonObj
  | cons (k : Chars) (v : Json) (tl : JsonObj) : JsonObj
  deriving DecidableEq
end

def digitChar (d : Nat) : Char :=
  Char.ofNat (48 + d)

/-- Decimal rendering of a natural number. -/
def serNat (n : Nat) : Chars :=
  if n = 0 then ['0'] else (Nat.digits 10 n).reverse.map digitChar

def serInt : Int → Chars
  | .ofNat n => serNat n
  | .negSucc m => '-' :: serNat (m + 1)

def hexChar (d : Nat) : Char :=
  if d < 10 then Char.ofNat (48 + d) else Char.ofNat (87 + d)

/-- JSON string escaping of one character. -/
def escChar (c : Char) : Chars :=
  if c = '"' then ['\\', '"']
  else if c = '\\' then ['\\', '\\']
  else if c = '\n' then ['\\', 'n']
  else if c = '\r' then ['\\', 'r']
  else if c = '\t' then ['\\', 't']
  else if c.toNat < 32 then ['\\', 'u', '0', '0', hexChar (c.toNat / 16), hexChar (c.toNat % 16)]
  else [c]

def escapeStr (s : Chars) : Chars := s.foldr (fun c acc => escChar c ++ acc) []

mutual
def serJson : Json → Chars
  | .null => 'n' :: ['u', 'l', 'l']
  | .bool true => 't' :: ['r', 'u', 'e']
  | .bool false => 'f' :: ['a', 'l', 's', 'e']
  | .num n => serInt n
  | .str s => '"' :: (escapeStr s ++ ['"'])
  | .arr .nil => ['[', ']']
  | .arr (.cons h t) => '[' :: ((serJson h ++ serArrTail t) ++ [']'])
  | .obj .nil => [obrChar, cbrChar]
  | .obj (.cons k v t) => obrChar :: ((serMember k v ++ serObjTail t) ++ [cbrChar])
def serMember (k : Chars) (v : Json) : Chars :=
  '"' :: (escapeStr k ++ ('"' :: ':' :: serJson v))
def serArrTail : JsonArr → Chars
  | .nil => []
  | .cons h t => ',' :: (serJson h ++ serArrTail t)
def serObjTail : JsonObj → Chars
  | .nil => []
  | .cons k v t => ',' :: (serMember k v ++ serObjTail t)
end

def hexVal (c : Char) : Option Nat :=
  let n := c.toNat
  if 48 ≤ n && n ≤ 57 then some (n - 48)
  else if 97 ≤ n && n ≤ 102 then some (n - 87)
  else if 65 ≤ n && n ≤ 70 then some (n - 55)
  else none

/-- Parse a JSON string body (after the opening quote) up to the closing quote. -/
def parseStringBody : Chars → Option (Chars × Chars)
  | [] => none
  | c :: r =>
    if c = '"' then some ([], r)
    else if c = '\\' then
      match r with
      | [] => none
      | e :: r2 =>
        if e = '"' then (parseStringBody r2).map (fun p => ('"' :: p.1, p.2))
        else if e = '\\' then (parseStringBody r2).map (fun p => ('\\' :: p.1, p.2))
        else if e = '/' then (parseStringBody r2).map (fun p => ('/' :: p.1, p.2))
        else if e = 'n' then (parseStringBody r2).map (fun p => ('\n' :: p.1, p.2))
        else if e = 'r' then (parseStringBody r2).map (fun p => ('\r' :: p.1, p.2))
        else if e = 't' then (parseStringBody r2).map (fun p => ('\t' :: p.1, p.2))
        else if e = 'b' then (parseStringBody r2).map (fun p => (Char.ofNat 8 :: p.1, p.2))
        else if e = 'f' then (parseStringBody r2).map (fun p => (Char.ofNat 12 :: p.1, p.2))
        else if e = 'u' then
          match r2 with
          | h1 :: h2 :: h3 :: h4 :: r3 =>
            match hexVal h1, hexVal h2, hexVal h3, hexVal h4 with
            | some d1, some d2, some d3, some d4 =>
              (parseStringBody r3).map
                (fun p => (Char.ofNat (((d1 * 16 + d2) * 16 + d3) * 16 + d4) :: p.1, p.2))
            | _, _, _, _ => none
          | _ => none
        else none
    else if c.toNat < 32 then none
    else (parseStringBody r).map (fun p => (c :: p.1, p.2))

/-- Consume a maximal run of decimal digits, extending the accumulator. -/
def scanDigits (acc : Nat) : Chars → Nat × Chars
  | [] => (acc, [])
  | c :: r => if isDigitC c then scanDigits (10 * acc + (c.toNat - 48)) r else (acc, c :: r)

/-- Scan an unsigned decimal number. -/
def scanNumber : Chars → Option (Nat × Chars)
  | [] => none
  | c :: r => if isDigitC c then some (scanDigits (c.toNat - 48) r) else none

def skipWs (l : Chars) : Chars := l.dropWhile jsonWs

mutual
def parseValue : Nat → Chars → Option (Json × Chars)
  | 0, _ => none
  | fuel + 1, s =>
    match s with
    | [] => none
    | c :: r =>
      if c = 'n' then
        match r with
        | 'u' :: 'l' :: 'l' :: r2 => some (.null, r2)
        | _ => none
      else if c = 't' then
        match r with
        | 'r' :: 'u' :: 'e' :: r2 => some (.bool true, r2)
        | _ => none
      else if c = 'f' then
        match r with
        | 'a' :: 'l' :: 's' :: 'e' :: r2 => some (.bool false, r2)
        | _ => none
      else if c = '"' then
        match parseStringBody r with
        | some (cs, r2) => some (.str cs, r2)
        | none => none
      else if c = '[' then
        match skipWs r with
        | [] => none
        | c1 :: r2 =>
          if c1 = ']' then some (.arr .nil, r2)
          else
            match parseElems fuel (c1 :: r2) with
            | some (a, r3) => some (.arr a, r3)
            | none => none
      else if c = obrChar then
        match skipWs r with
        | [] => none
        | c1 :: r2 =>
          if c1 = cbrChar then some (.obj .nil, r2)
          else
            match parseMembers fuel (c1 :: r2) with
            | some (o, r3) => some (.obj o, r3)
            | none => none
      else if c = '-' then
        match scanNumber r with
        | some (n, r2) => some (.num (-(n : Int)), r2)
        | none => none
      else if isDigitC c then
        match scanNumber (c :: r) with
        | some (n, r2) => some (.num (n : Int), r2)
        | none => none
      else none
def parseElems : Nat → Chars → Option (JsonArr × Chars)
  | 0, _ => none
  | fuel + 1, s =>
    match parseValue fuel s with
    | some (v, r1) =>
      match skipWs r1 with
      | [] => none
      | c1 :: r2 =>
        if c1 = ',' then
          match parseElems fuel (skipWs r2) with
          | some (t, r3) => some (.cons v t, r3)
          | none => none
        else if c1 = ']' then some (.cons v .nil, r2)
        else none
    | none => none
def parseMembers : Nat → Chars → Option (JsonObj × Chars)
  | 0, _ => none
  | fuel + 1, s =>
    match s with
    | [] => none
    | c :: r =>
      if c = '"' then
        match parseStringBody r with
        | some (k, r1) =>
          match skipWs r1 with
          | [] => none
          | c1 :: r2 =>
            if c1 = ':' then
              match parseValue fuel (skipWs r2) with
              | some (v, r3) =>
                match skipWs r3 with
                | [] => none
                | c2 :: r4 =>
                  if c2 = ',' then
                    match parseMembers fuel (skipWs r4) with
                    | some (t, r5) => some (.cons k v t, r5)
                    | none => none
                  else if c2 = cbrChar then some (.cons k v .nil, r4)
                  else none
              | none => none
            else none
        | none => none
      else none
end

/-- Model of Python `json.loads` (returns `none` where `json.loads` raises). -/
def jsonParse (t : Chars) : Option Json :=
  let t1 := skipWs t
  match parseValue (t1.length + 1) t1 with
  | some (v, rest) => if skipWs rest = [] then some v else none
  | none => none

/-- Whether `json.loads` succeeds. -/
def jsonParses (t : Chars) : Bool := (jsonParse t).isSome

mutual
def jdepth : Json → Nat
  | .null => 1
  | .bool _ => 1
  | .num _ => 1
  | .str _ => 1
  | .arr a => jdepthA a + 1
  | .obj o => jdepthO o + 1
def jdepthA : JsonArr → Nat
  | .nil => 0
  | .cons h t => jdepth h + jdepthA t + 1
def jdepthO : JsonObj → Nat
  | .nil => 0
  | .cons _ v t => jdepth v + jdepthO t + 1
end

/-! ## Round-trip facts for the JSON model -/

/-- `rest` does not begin with a digit (so a number scan stops exactly there). -/
def notDigitStart : Chars → Prop
  | [] => True
  | c :: _ => isDigitC c = false

theorem digitChar_facts : ∀ d, d < 10 →
    isDigitC (digitChar d) = true ∧ (digitChar d).toNat = 48 + d := by decide

theorem hexVal_hexChar : ∀ d, d < 16 → hexVal (hexChar d) = some d := by decide

theorem isDigitC_bounds (c : Char) (h : isDigitC c = true) :
    48 ≤ c.toNat ∧ c.toNat ≤ 57 := by
  unfold isDigitC at h
  simp only [Bool.and_eq_true, decide_eq_true_eq] at h
  exact h

theorem isDigitC_ne (c : Char) (h : isDigitC c = true) (d : Char)
    (hd : isDigitC d = false) : c ≠ d := by
  intro hEq
  rw [hEq, hd] at h
  exact Bool.false_ne_true h

/-- A character with code point at least 48 is no kind of whitespace. -/
theorem not_ws_of_toNat_ge (c : Char) (h1 : 48 ≤ c.toNat) :
    jsonWs c = false ∧ pySpace c = false := by
  constructor
  · unfold jsonWs
    simp only [Bool.or_eq_false_iff, decide_eq_false_iff_not]
    refine ⟨⟨⟨?_, ?_⟩, ?_⟩, ?_⟩ <;>
      (intro hEq; rw [hEq] at h1; exact absurd h1 (by decide))
  · unfold pySpace
    simp only [Bool.or_eq_false_iff, decide_eq_false_iff_not]
    refine ⟨⟨⟨⟨⟨?_, ?_⟩, ?_⟩, ?_⟩, ?_⟩, ?_⟩ <;> first
      | (intro hEq; rw [hEq] at h1; exact absurd h1 (by decide))
      | omega

theorem isDigitC_not_ws (c : Char) (h : isDigitC c = true) :
    jsonWs c = false ∧ pySpace c = false :=
  not_ws_of_toNat_ge c (isDigitC_bounds c h).1

theorem scanNumber_cons (c : Char) (r : Chars) :
    scanNumber (c :: r) =
      if isDigitC c = true then some (scanDigits (c.toNat - 48) r) else none := rfl

theorem scanDigits_stop (acc : Nat) (rest : Chars) (h : notDigitStart rest) :
    scanDigits acc rest = (acc, rest) := by
  cases rest with
  | nil => rfl
  | cons c r =>
    unfold scanDigits
    rw [if_neg (by simp [notDigitStart] at h; simp [h])]

theorem scanDigits_block : ∀ (ds : List Nat), (∀ d ∈ ds, d < 10) →
    ∀ (acc : Nat) (rest : Chars), notDigitStart rest →
      scanDigits acc (ds.map digitChar ++ rest) =
        (ds.foldl (fun a d => 10 * a + d) acc, rest) := by
  intro ds
  induction ds with
  | nil => intro _ acc rest h; simpa using scanDigits_stop acc rest h
  | cons d ds ih =>
    intro hall acc rest hrest
    have hd := digitChar_facts d (hall d (by simp))
    rw [List.map_cons, List.cons_append]
    unfold scanDigits
    rw [if_pos hd.1, hd.2]
    rw [show 48 + d - 48 = d by omega]
    exact ih (fun x hx => hall x (by simp [hx])) _ rest hrest

theorem foldr_ofDigits (l : List Nat) :
    l.foldr (fun d a => 10 * a + d) 0 = Nat.ofDigits 10 l := by
  induction l with
  | nil => simp [Nat.ofDigits]
  | cons d l ih =>
    simp only [List.foldr_cons, ih, Nat.ofDigits_cons]
    ring

theorem scanNumber_serNat (n : Nat) (rest : Chars) (hrest : notDigitStart rest) :
    scanNumber (serNat n ++ rest) = some (n, rest) := by
  unfold serNat
  by_cases h0 : n = 0
  · subst h0
    rw [if_pos rfl, List.cons_append, scanNumber_cons,
      if_pos (show isDigitC '0' = true by decide)]
    rw [show ('0' : Char).toNat - 48 = 0 by decide]
    simp only [List.nil_append]
    rw [scanDigits_stop 0 rest hrest]
  · rw [if_neg h0]
    have hne : (Nat.digits 10 n).reverse ≠ [] := by
      simp [Nat.digits_ne_nil_iff_ne_zero.mpr h0]
    obtain ⟨d0, ds', hds⟩ : ∃ d0 ds', (Nat.digits 10 n).reverse = d0 :: ds' := by
      cases h : (Nat.digits 10 n).reverse with
      | nil => exact absurd h hne
      | cons a t => exact ⟨a, t, rfl⟩
    have hall : ∀ d ∈ (Nat.digits 10 n).reverse, d < 10 := by
      intro d hd
      exact Nat.digits_lt_base (by norm_num) (List.mem_reverse.mp hd)
    rw [hds, List.map_cons, List.cons_append]
    have hd0 := digitChar_facts d0 (hall d0 (by rw [hds]; simp))
    rw [scanNumber_cons, if_pos hd0.1, hd0.2]
    rw [show 48 + d0 - 48 = d0 by omega]
    rw [scanDigits_block ds' (fun x hx => hall x (by rw [hds]; simp [hx])) d0 rest hrest]
    have : ds'.foldl (fun a d => 10 * a + d) d0 = n := by
      have h1 : (d0 :: ds').foldl (fun a d => 10 * a + d) 0 = n := by
        rw [← hds, List.foldl_reverse]
        have := foldr_ofDigits (Nat.digits 10 n)
        rw [show (fun (x : Nat) (y : Nat) => 10 * y + x) = (fun d a => 10 * a + d) from rfl]
        rw [this, Nat.ofDigits_digits]
      simpa using h1
    rw [this]

theorem parseStringBody_quote (r : Chars) : parseStringBody ('"' :: r) = some ([], r) := by
  rw [parseStringBody.eq_def]
  rfl

theorem parseStringBody_esc_quote (X : Chars) :
    parseStringBody ('\\' :: '"' :: X) =
      (parseStringBody X).map (fun p => ('"' :: p.1, p.2)) := by
  rw [parseStringBody.eq_def]
  rfl

theorem parseStringBody_esc_backslash (X : Chars) :
    parseStringBody ('\\' :: '\\' :: X) =
      (parseStringBody X).map (fun p => ('\\' :: p.1, p.2)) := by
  rw [parseStringBody.eq_def]
  rfl

theorem parseStringBody_esc_n (X : Chars) :
    parseStringBody ('\\' :: 'n' :: X) =
      (parseStringBody X).map (fun p => ('\n' :: p.1, p.2)) := by
  rw [parseStringBody.eq_def]
  rfl

theorem parseStringBody_esc_r (X : Chars) :
    parseStringBody ('\\' :: 'r' :: X) =
      (parseStringBody X).map (fun p => ('\r' :: p.1, p.2)) := by
  rw [parseStringBody.eq_def]
  rfl

theorem parseStringBody_esc_t (X : Chars) :
    parseStringBody ('\\' :: 't' :: X) =
      (parseStringBody X).map (fun p => ('\t' :: p.1, p.2)) := by
  rw [parseStringBody.eq_def]
  rfl

theorem parseStringBody_esc_u (h1 h2 h3 h4 : Char) (d1 d2 d3 d4 : Nat) (X : Chars)
    (e1 : hexVal h1 = some d1) (e2 : hexVal h2 = some d2)
    (e3 : hexVal h3 = some d3) (e4 : hexVal h4 = some d4) :
    parseStringBody ('\\' :: 'u' :: h1 :: h2 :: h3 :: h4 :: X) =
      (parseStringBody X).map
        (fun p => (Char.ofNat (((d1 * 16 + d2) * 16 + d3) * 16 + d4) :: p.1, p.2)) := by
  rw [parseStringBody.eq_def]
  simp [e1, e2, e3, e4]

theorem parseStringBody_raw (c : Char) (X : Chars)
    (h1 : c ≠ '"') (h2 : c ≠ '\\') (h3 : ¬ c.toNat < 32) :
    parseStringBody (c :: X) =
      (parseStringBody X).map (fun p => (c :: p.1, p.2)) := by
  rw [parseStringBody.eq_def]
  simp [h1, h2, h3]

/-- Characters emitted raw by the escaper survive parsing. -/
theorem parseStringBody_escape (s : Chars) :
    ∀ rest, parseStringBody (escapeStr s ++ ('"' :: rest)) = some (s, rest) := by
  induction s with
  | nil => intro rest; simp [escapeStr, parseStringBody_quote]
  | cons c s' ih =>
    intro rest
    have hes : escapeStr (c :: s') = escChar c ++ escapeStr s' := rfl
    rw [hes, List.append_assoc]
    unfold escChar
    by_cases h1 : c = '"'
    · subst h1
      rw [if_pos rfl]
      simp only [List.cons_append, List.nil_append]
      rw [parseStringBody_esc_quote, ih rest]
      rfl
    · rw [if_neg h1]
      by_cases h2 : c = '\\'
      · subst h2
        rw [if_pos rfl]
        simp only [List.cons_append, List.nil_append]
        rw [parseStringBody_esc_backslash, ih rest]
        rfl
      · rw [if_neg h2]
        by_cases h3 : c = '\n'
        · subst h3
          rw [if_pos rfl]
          simp only [List.cons_append, List.nil_append]
          rw [parseStringBody_esc_n, ih rest]
          rfl
        · rw [if_neg h3]
          by_cases h4 : c = '\r'
          · subst h4
            rw [if_pos rfl]
            simp only [List.cons_append, List.nil_append]
            rw [parseStringBody_esc_r, ih rest]
            rfl
          · rw [if_neg h4]
            by_cases h5 : c = '\t'
            · subst h5
              rw [if_pos rfl]
              simp only [List.cons_append, List.nil_append]
              rw [parseStringBody_esc_t, ih rest]
              rfl
            · rw [if_neg h5]
              by_cases h6 : c.toNat < 32
              · rw [if_pos h6]
                simp only [List.cons_append, List.nil_append]
                rw [parseStringBody_esc_u _ _ _ _ 0 0 (c.toNat / 16) (c.toNat % 16) _
                  (by decide) (by decide)
                  (hexVal_hexChar _ (by omega))
                  (hexVal_hexChar _ (by omega))]
                rw [ih rest]
                have hval : ((0 * 16 + 0) * 16 + c.toNat / 16) * 16 + c.toNat % 16 = c.toNat := by
                  omega
                rw [hval, Char.ofNat_toNat]
                rfl
              · rw [if_neg h6]
                simp only [List.cons_append, List.nil_append]
                rw [parseStringBody_raw c _ h1 h2 h6, ih rest]
                rfl

/-- The characters a serialized JSON value can start with. -/
def starterOk (c : Char) : Prop :=
  c = 'n' ∨ c = 't' ∨ c = 'f' ∨ c = '"' ∨ c = '[' ∨ c = obrChar ∨ c = '-' ∨ isDigitC c = true

theorem starterOk_props (c : Char) (h : starterOk c) :
    jsonWs c = false ∧ pySpace c = false ∧ c ≠ ']' ∧ c ≠ btChar ∧ c ≠ cbrChar ∧ c ≠ ',' := by
  rcases h with rfl | rfl | rfl | rfl | rfl | rfl | rfl | hd
  · exact ⟨by decide, by decide, by decide, by decide, by decide, by decide⟩
  · exact ⟨by decide, by decide, by decide, by decide, by decide, by decide⟩
  · exact ⟨by decide, by decide, by decide, by decide, by decide, by decide⟩
  · exact ⟨by decide, by decide, by decide, by decide, by decide, by decide⟩
  · exact ⟨by decide, by decide, by decide, by decide, by decide, by decide⟩
  · exact ⟨by decide, by decide, by decide, by decide, by decide, by decide⟩
  · exact ⟨by decide, by decide, by decide, by decide, by decide, by decide⟩
  · exact ⟨(isDigitC_not_ws c hd).1, (isDigitC_not_ws c hd).2,
      isDigitC_ne c hd ']' (by decide), isDigitC_ne c hd btChar (by decide),
      isDigitC_ne c hd cbrChar (by decide), isDigitC_ne c hd ',' (by decide)⟩

theorem serNat_head (n : Nat) : ∃ c r, serNat n = c :: r ∧ isDigitC c = true := by
  unfold serNat
  by_cases h0 : n = 0
  · subst h0
    exact ⟨'0', [], by simp, by decide⟩
  · rw [if_neg h0]
    obtain ⟨d0, ds', hds⟩ : ∃ d0 ds', (Nat.digits 10 n).reverse = d0 :: ds' := by
      cases h : (Nat.digits 10 n).reverse with
      | nil =>
        exact absurd h (by simp [Nat.digits_ne_nil_iff_ne_zero.mpr h0])
      | cons a t => exact ⟨a, t, rfl⟩
    refine ⟨digitChar d0, ds'.map digitChar, by rw [hds]; simp, ?_⟩
    exact (digitChar_facts d0 (Nat.digits_lt_base (by norm_num)
      (List.mem_reverse.mp (by rw [hds]; simp)))).1

/-- Every serialized JSON value starts with a value-starter character. -/
theorem serJson_head (v : Json) : ∃ c r, serJson v = c :: r ∧ starterOk c := by
  cases v with
  | null => exact ⟨'n', ['u', 'l', 'l'], by simp [serJson], Or.inl rfl⟩
  | bool b =>
    cases b
    · exact ⟨'f', ['a', 'l', 's', 'e'], by simp [serJson], Or.inr (Or.inr (Or.inl rfl))⟩
    · exact ⟨'t', ['r', 'u', 'e'], by simp [serJson], Or.inr (Or.inl rfl)⟩
  | num n =>
    cases n with
    | ofNat m =>
      obtain ⟨c, r, hc, hd⟩ := serNat_head m
      exact ⟨c, r, by simp [serJson, serInt, hc], by
        right; right; right; right; right; right; right; exact hd⟩
    | negSucc m =>
      exact ⟨'-', serNat (m + 1), by simp [serJson, serInt],
        Or.inr (Or.inr (Or.inr (Or.inr (Or.inr (Or.inr (Or.inl rfl))))))⟩
  | str s =>
    exact ⟨'"', escapeStr s ++ ['"'], by simp [serJson],
      Or.inr (Or.inr (Or.inr (Or.inl rfl)))⟩
  | arr a =>
    cases a with
    | nil =>
      exact ⟨'[', [']'], by simp [serJson], Or.inr (Or.inr (Or.inr (Or.inr (Or.inl rfl))))⟩
    | cons h t =>
      exact ⟨'[', (serJson h ++ serArrTail t) ++ [']'], by simp [serJson],
        Or.inr (Or.inr (Or.inr (Or.inr (Or.inl rfl))))⟩
  | obj o =>
    cases o with
    | nil =>
      exact ⟨obrChar, [cbrChar], by simp [serJson],
        Or.inr (Or.inr (Or.inr (Or.inr (Or.inr (Or.inl rfl)))))⟩
    | cons k v t =>
      exact ⟨obrChar, (serMember k v ++ serObjTail t) ++ [cbrChar], by simp [serJson],
        Or.inr (Or.inr (Or.inr (Or.inr (Or.inr (Or.inl rfl)))))⟩

theorem skipWs_cons_not (c : Char) (r : Chars) (h : jsonWs c = false) :
    skipWs (c :: r) = c :: r := by
  unfold skipWs
  rw [List.dropWhile_cons, if_neg (by simp [h])]

theorem skipWs_cons (c : Char) (r : Chars) :
    skipWs (c :: r) = if jsonWs c = true then skipWs r else c :: r := by
  unfold skipWs
  rw [List.dropWhile_cons]

/-- Skipping whitespace in front of a serialized value changes nothing. -/
theorem skipWs_serJson (v : Json) (rest : Chars) :
    skipWs (serJson v ++ rest) = serJson v ++ rest := by
  obtain ⟨c, r, hc, hst⟩ := serJson_head v
  rw [hc, List.cons_append]
  exact skipWs_cons_not c _ (starterOk_props c hst).1

theorem jdepth_pos (v : Json) : 1 ≤ jdepth v := by
  cases v <;> simp [jdepth]

theorem obrChar_facts :
    obrChar ≠ 'n' ∧ obrChar ≠ 't' ∧ obrChar ≠ 'f' ∧ obrChar ≠ '"' ∧ obrChar ≠ '[' := by decide

/-- Parsing a serialized JSON value (with enough fuel) recovers it exactly,
leaving any non-digit-leading remainder untouched. -/
theorem parse_ser_roundtrip : ∀ fuel : Nat,
    (∀ (v : Json) (rest : Chars), jdepth v ≤ fuel → notDigitStart rest →
      parseValue fuel (serJson v ++ rest) = some (v, rest)) ∧
    (∀ (h : Json) (t : JsonArr) (rest : Chars),
      jdepth h + jdepthA t + 1 ≤ fuel → notDigitStart rest →
      parseElems fuel ((serJson h ++ serArrTail t) ++ (']' :: rest)) = some (.cons h t, rest)) ∧
    (∀ (k : Chars) (v : Json) (t : JsonObj) (rest : Chars),
      jdepth v + jdepthO t + 1 ≤ fuel → notDigitStart rest →
      parseMembers fuel ((serMember k v ++ serObjTail t) ++ (cbrChar :: rest)) =
        some (.cons k v t, rest)) := by
  intro fuel
  induction fuel with
  | zero =>
    refine ⟨?_, ?_, ?_⟩
    · intro v rest hdep _
      have := jdepth_pos v
      omega
    · intro h t rest hdep _
      omega
    · intro k v t rest hdep _
      omega
  | succ fuel ih =>
    obtain ⟨ihV, ihE, ihM⟩ := ih
    refine ⟨?_, ?_, ?_⟩
    · intro v rest hdep hrest
      cases v with
      | null =>
        rw [show serJson .null ++ rest = 'n' :: 'u' :: 'l' :: 'l' :: rest by simp [serJson]]
        simp [parseValue]
      | bool b =>
        cases b
        · rw [show serJson (.bool false) ++ rest = 'f' :: 'a' :: 'l' :: 's' :: 'e' :: rest by
            simp [serJson]]
          simp [parseValue]
        · rw [show serJson (.bool true) ++ rest = 't' :: 'r' :: 'u' :: 'e' :: rest by
            simp [serJson]]
          simp [parseValue]
      | num n =>
        cases n with
        | ofNat m =>
          obtain ⟨c, r, hc, hd⟩ := serNat_head m
          rw [show serJson (.num (Int.ofNat m)) = serNat m by simp [serJson, serInt]]
          rw [hc, List.cons_append]
          have hdisp : parseValue (fuel + 1) (c :: (r ++ rest)) =
              (match scanNumber (c :: (r ++ rest)) with
               | some (n, r2) => some (.num (n : Int), r2)
               | none => none) := by
            simp only [parseValue]
            rw [if_neg (isDigitC_ne c hd 'n' (by decide)),
              if_neg (isDigitC_ne c hd 't' (by decide)),
              if_neg (isDigitC_ne c hd 'f' (by decide)),
              if_neg (isDigitC_ne c hd '"' (by decide)),
              if_neg (isDigitC_ne c hd '[' (by decide)),
              if_neg (isDigitC_ne c hd obrChar (by decide)),
              if_neg (isDigitC_ne c hd '-' (by decide)), if_pos hd]
          rw [hdisp, ← List.cons_append, ← hc, scanNumber_serNat m rest hrest]
          rfl
        | negSucc m =>
          rw [show serJson (.num (Int.negSucc m)) = '-' :: serNat (m + 1) by
            simp [serJson, serInt]]
          rw [List.cons_append]
          have hdisp : parseValue (fuel + 1) ('-' :: (serNat (m + 1) ++ rest)) =
              (match scanNumber (serNat (m + 1) ++ rest) with
               | some (n, r2) => some (.num (-(n : Int)), r2)
               | none => none) := by
            simp [parseValue, show ('-' : Char) ≠ obrChar by decide]
          rw [hdisp, scanNumber_serNat (m + 1) rest hrest]
          have hneg : -(((m + 1 : Nat)) : Int) = Int.negSucc m := by
            rw [Int.negSucc_eq]
            push_cast
            ring
          show some (Json.num (-(((m + 1 : Nat)) : Int)), rest) =
            some (Json.num (Int.negSucc m), rest)
          rw [hneg]
      | str s =>
        rw [show serJson (.str s) ++ rest = '"' :: (escapeStr s ++ ('"' :: rest)) by
          simp [serJson]]
        have hdisp : parseValue (fuel + 1) ('"' :: (escapeStr s ++ ('"' :: rest))) =
            (match parseStringBody (escapeStr s ++ ('"' :: rest)) with
             | some (cs, r2) => some (.str cs, r2)
             | none => none) := by
          simp [parseValue]
        rw [hdisp, parseStringBody_escape s rest]
      | arr a =>
        cases a with
        | nil =>
          rw [show serJson (.arr .nil) ++ rest = '[' :: (']' :: rest) by simp [serJson]]
          simp [parseValue, skipWs, show jsonWs ']' = false by decide]
        | cons h t =>
          rw [show serJson (.arr (.cons h t)) ++ rest =
              '[' :: (serJson h ++ (serArrTail t ++ (']' :: rest))) by simp [serJson]]
          obtain ⟨c0, r0, hc0, hst⟩ := serJson_head h
          have hskip : skipWs (serJson h ++ (serArrTail t ++ (']' :: rest))) =
              c0 :: (r0 ++ (serArrTail t ++ (']' :: rest))) := by
            rw [hc0]
            simp only [List.cons_append]
            exact skipWs_cons_not c0 _ (starterOk_props c0 hst).1
          have hdisp : parseValue (fuel + 1)
              ('[' :: (serJson h ++ (serArrTail t ++ (']' :: rest)))) =
              (match parseElems fuel (c0 :: (r0 ++ (serArrTail t ++ (']' :: rest)))) with
               | some (a, r3) => some (.arr a, r3)
               | none => none) := by
            simp [parseValue, hskip, (starterOk_props c0 hst).2.2.1]
          rw [hdisp]
          rw [show c0 :: (r0 ++ (serArrTail t ++ (']' :: rest))) =
              (serJson h ++ serArrTail t) ++ (']' :: rest) by rw [hc0]; simp]
          have hbound : jdepth h + jdepthA t + 1 ≤ fuel := by
            have heq : jdepth (.arr (.cons h t)) = jdepth h + jdepthA t + 2 := by
              simp [jdepth, jdepthA]
            omega
          rw [ihE h t rest hbound hrest]
      | obj o =>
        cases o with
        | nil =>
          rw [show serJson (.obj .nil) ++ rest = obrChar :: (cbrChar :: rest) by simp [serJson]]
          simp [parseValue, skipWs, show jsonWs cbrChar = false by decide, obrChar_facts.1,
            obrChar_facts.2.1, obrChar_facts.2.2.1, obrChar_facts.2.2.2.1, obrChar_facts.2.2.2.2]
        | cons k v t =>
          rw [show serJson (.obj (.cons k v t)) ++ rest =
              obrChar :: ('"' :: (escapeStr k ++ ('"' :: (':' ::
                (serJson v ++ (serObjTail t ++ (cbrChar :: rest))))))) by simp [serJson, serMember]]
          have hskip : skipWs ('"' :: (escapeStr k ++ ('"' :: (':' ::
              (serJson v ++ (serObjTail t ++ (cbrChar :: rest))))))) =
              '"' :: (escapeStr k ++ ('"' :: (':' ::
                (serJson v ++ (serObjTail t ++ (cbrChar :: rest)))))) :=
            skipWs_cons_not '"' _ (by decide)
          have hdisp : parseValue (fuel + 1)
              (obrChar :: ('"' :: (escapeStr k ++ ('"' :: (':' ::
                (serJson v ++ (serObjTail t ++ (cbrChar :: rest)))))))) =
              (match parseMembers fuel
                  ('"' :: (escapeStr k ++ ('"' :: (':' ::
                    (serJson v ++ (serObjTail t ++ (cbrChar :: rest))))))) with
               | some (o, r3) => some (.obj o, r3)
               | none => none) := by
            simp [parseValue, hskip, show ('"' : Char) ≠ cbrChar by decide, obrChar_facts.1,
              obrChar_facts.2.1, obrChar_facts.2.2.1, obrChar_facts.2.2.2.1,
              obrChar_facts.2.2.2.2]
          rw [hdisp]
          rw [show '"' :: (escapeStr k ++ ('"' :: (':' ::
              (serJson v ++ (serObjTail t ++ (cbrChar :: rest)))))) =
              (serMember k v ++ serObjTail t) ++ (cbrChar :: rest) by
            simp [serMember]]
          have hbound : jdepth v + jdepthO t + 1 ≤ fuel := by
            have heq : jdepth (.obj (.cons k v t)) = jdepth v + jdepthO t + 2 := by
              simp [jdepth, jdepthO]
            omega
          rw [ihM k v t rest hbound hrest]
    · intro h t rest hdep hrest
      have hdisp : parseElems (fuel + 1) ((serJson h ++ serArrTail t) ++ (']' :: rest)) =
          (match parseValue fuel ((serJson h ++ serArrTail t) ++ (']' :: rest)) with
           | some (v, r1) =>
             (match skipWs r1 with
              | [] => none
              | c1 :: r2 =>
                if c1 = ',' then
                  match parseElems fuel (skipWs r2) with
                  | some (t, r3) => some (.cons v t, r3)
                  | none => none
                else if c1 = ']' then some (.cons v .nil, r2)
                else none)
           | none => none) := by
        simp only [parseElems]
      rw [hdisp]
      rw [show (serJson h ++ serArrTail t) ++ (']' :: rest) =
          serJson h ++ (serArrTail t ++ (']' :: rest)) by simp]
      have hnd : notDigitStart (serArrTail t ++ (']' :: rest)) := by
        cases t <;> simp [serArrTail, notDigitStart] <;> decide
      have hbh : jdepth h ≤ fuel := by omega
      rw [ihV h _ hbh hnd]
      cases t with
      | nil =>
        simp [serArrTail, skipWs_cons, show jsonWs ']' = false by decide]
      | cons h2 t2 =>
        have hbound2 : jdepth h2 + jdepthA t2 + 1 ≤ fuel := by
          have heq : jdepthA (JsonArr.cons h2 t2) = jdepth h2 + jdepthA t2 + 1 := by
            simp [jdepthA]
          have hp := jdepth_pos h
          omega
        have hskip2 := skipWs_serJson h2 (serArrTail t2 ++ (']' :: rest))
        have hrec := ihE h2 t2 rest hbound2 hrest
        rw [List.append_assoc] at hrec
        simp [serArrTail, skipWs_cons, show jsonWs ',' = false by decide, hskip2, hrec]
    · intro k v t rest hdep hrest
      rw [show (serMember k v ++ serObjTail t) ++ (cbrChar :: rest) =
          '"' :: (escapeStr k ++ ('"' :: (':' ::
            (serJson v ++ (serObjTail t ++ (cbrChar :: rest)))))) by simp [serMember]]
      have hdisp : parseMembers (fuel + 1) ('"' :: (escapeStr k ++ ('"' :: (':' ::
          (serJson v ++ (serObjTail t ++ (cbrChar :: rest))))))) =
          (match parseStringBody (escapeStr k ++ ('"' :: (':' ::
              (serJson v ++ (serObjTail t ++ (cbrChar :: rest)))))) with
           | some (k2, r1) =>
             (match skipWs r1 with
              | [] => none
              | c1 :: r2 =>
                if c1 = ':' then
                  match parseValue fuel (skipWs r2) with
                  | some (v2, r3) =>
                    (match skipWs r3 with
                     | [] => none
                     | c2 :: r4 =>
                       if c2 = ',' then
                         match parseMembers fuel (skipWs r4) with
                         | some (t2, r5) => some (.cons k2 v2 t2, r5)
                         | none => none
                       else if c2 = cbrChar then some (.cons k2 v2 .nil, r4)
                       else none)
                  | none => none
                else none)
           | none => none) := by
        simp only [parseMembers]
        simp
      rw [hdisp]
      rw [parseStringBody_escape k (':' :: (serJson v ++ (serObjTail t ++ (cbrChar :: rest))))]
      have hnd : notDigitStart (serObjTail t ++ (cbrChar :: rest)) := by
        cases t <;> simp [serObjTail, notDigitStart] <;> decide
      have hbv : jdepth v ≤ fuel := by omega
      have hskipv := skipWs_serJson v (serObjTail t ++ (cbrChar :: rest))
      have hrecv := ihV v (serObjTail t ++ (cbrChar :: rest)) hbv hnd
      cases t with
      | nil =>
        simp only [serObjTail, List.nil_append] at hskipv hrecv
        simp [serObjTail, skipWs_cons, show jsonWs ':' = false by decide,
          show jsonWs cbrChar = false by decide, hskipv, hrecv,
          show cbrChar ≠ ',' by decide]
      | cons k2 v2 t2 =>
        simp only [serObjTail, List.cons_append, List.append_assoc] at hskipv hrecv
        have hbound2 : jdepth v2 + jdepthO t2 + 1 ≤ fuel := by
          have heq : jdepthO (JsonObj.cons k2 v2 t2) = jdepth v2 + jdepthO t2 + 1 := by
            simp [jdepthO]
          have hp := jdepth_pos v
          omega
        have hskip2 : skipWs (serMember k2 v2 ++ (serObjTail t2 ++ (cbrChar :: rest))) =
            serMember k2 v2 ++ (serObjTail t2 ++ (cbrChar :: rest)) := by
          rw [show serMember k2 v2 = '"' :: (escapeStr k2 ++ ('"' :: ':' :: serJson v2)) by
            simp [serMember]]
          simp only [List.cons_append]
          exact skipWs_cons_not '"' _ (by decide)
        have hrec := ihM k2 v2 t2 rest hbound2 hrest
        rw [List.append_assoc] at hrec
        simp [serObjTail, skipWs_cons, show jsonWs ':' = false by decide,
          show jsonWs ',' = false by decide, hskipv, hrecv, hskip2, hrec]

theorem serInt_len_pos (i : Int) : 1 ≤ (serInt i).length := by
  cases i with
  | ofNat m =>
    obtain ⟨c, r, hc, _⟩ := serNat_head m
    simp [serInt, hc]
  | negSucc m => simp [serInt]

theorem jdepth_le_len : ∀ (n : Nat),
    (∀ v : Json, sizeOf v ≤ n → jdepth v ≤ (serJson v).length) ∧
    (∀ a : JsonArr, sizeOf a ≤ n → jdepthA a ≤ (serArrTail a).length) ∧
    (∀ o : JsonObj, sizeOf o ≤ n → jdepthO o ≤ (serObjTail o).length) := by
  intro n
  induction n with
  | zero =>
    refine ⟨?_, ?_, ?_⟩
    · intro v hv
      cases v <;> simp at hv
    · intro a ha
      cases a <;> simp at ha
    · intro o ho
      cases o <;> simp at ho
  | succ n ih =>
    obtain ⟨ihV, ihA, ihO⟩ := ih
    refine ⟨?_, ?_, ?_⟩
    · intro v hv
      cases v with
      | null => simp [jdepth, serJson]
      | bool b => cases b <;> simp [jdepth, serJson]
      | num i =>
        have := serInt_len_pos i
        simp only [jdepth, serJson]
        omega
      | str s => simp [jdepth, serJson]
      | arr a =>
        cases a with
        | nil => simp [jdepth, jdepthA, serJson]
        | cons h t =>
          have h1 : jdepth h ≤ (serJson h).length := ihV h (by simp at hv ⊢; omega)
          have h2 : jdepthA t ≤ (serArrTail t).length := ihA t (by simp at hv ⊢; omega)
          simp [jdepth, jdepthA, serJson]
          omega
      | obj o =>
        cases o with
        | nil => simp [jdepth, jdepthO, serJson]
        | cons k v2 t =>
          have h1 : jdepth v2 ≤ (serJson v2).length := ihV v2 (by simp at hv ⊢; omega)
          have h2 : jdepthO t ≤ (serObjTail t).length := ihO t (by simp at hv ⊢; omega)
          simp [jdepth, jdepthO, serJson, serMember]
          omega
    · intro a ha
      cases a with
      | nil => simp [jdepthA, serArrTail]
      | cons h t =>
        have h1 : jdepth h ≤ (serJson h).length := ihV h (by simp at ha ⊢; omega)
        have h2 : jdepthA t ≤ (serArrTail t).length := ihA t (by simp at ha ⊢; omega)
        simp [jdepthA, serArrTail]
        omega
    · intro o ho
      cases o with
      | nil => simp [jdepthO, serObjTail]
      | cons k v2 t =>
        have h1 : jdepth v2 ≤ (serJson v2).length := ihV v2 (by simp at ho ⊢; omega)
        have h2 : jdepthO t ≤ (serObjTail t).length := ihO t (by simp at ho ⊢; omega)
        simp [jdepthO, serObjTail, serMember]
        omega

/-- The JSON model round-trips: parsing a serialized value recovers it. -/
theorem jsonParse_serJson (v : Json) : jsonParse (serJson v) = some v := by
  have hskip : skipWs (serJson v) = serJson v := by
    have := skipWs_serJson v []
    simpa using this
  have hfuel : jdepth v ≤ (serJson v).length + 1 := by
    have := (jdepth_le_len (sizeOf v)).1 v le_rfl
    omega
  have h := (parse_ser_roundtrip ((serJson v).length + 1)).1 v [] hfuel trivial
  rw [List.append_nil] at h
  simp only [jsonParse, hskip, h]
  simp [skipWs]

/-! ## The JSON-coercion cascades

Embeddings of the `expect_json` extraction logic in
`StoryBibleExtractor._call_llm` (src/extraction/story_bible_extractor.py,
lines 502-559), `ScreenplayConverter._call_llm` (src/screenplay/converter.py,
lines 510-541) and `SceneBreakdownExtractor._call_llm`
(src/screenplay/scene_breakdown.py, lines 121-145).  Each takes the response
text and returns the recovered JSON string, or `none` where the Python code
lets an exception escape the extraction block. -/

def sepJsonFence : Chars := "```json".toList

def fence3 : Chars := "```".toList

def containsChar (t : Chars) (c : Char) : Bool := t.contains c

/-- Last-resort bracket scan of `StoryBibleExtractor._call_llm` (lines 531-555):
`start_arr = find('[')`, `start_obj = find('{')`, whichever comes first wins. -/
def storyBibleScan (t : Chars) : Option Chars :=
  match findChar t '[', findChar t obrChar with
  | none, none => none
  | some sa, none =>
    match rfindChar t ']' with
    | none => none
    | some e =>
      let ex := pySlice t sa (e + 1)
      if jsonParses ex then some ex else none
  | none, some so =>
    match rfindChar t cbrChar with
    | none => none
    | some e =>
      let ex := pySlice t so (e + 1)
      if jsonParses ex then some ex else none
  | some sa, some so =>
    let start := min sa so
    let ec := if start = sa then ']' else cbrChar
    match rfindChar t ec with
    | none => none
    | some e =>
      let ex := pySlice t start (e + 1)
      if jsonParses ex then some ex else none

/-- `StoryBibleExtractor._call_llm` JSON extraction (lines 502-559). -/
def storyBibleCoerce (t : Chars) : Option Chars :=
  if jsonParses t then some t
  else
    let extracted : Option Chars :=
      if containsSub sepJsonFence t then
        if (splitOnSub sepJsonFence t).length > 1 then
          some (pyStrip ((splitOnSub fence3 ((splitOnSub sepJsonFence t).getD 1 [])).getD 0 []))
        else none
      else if containsSub fence3 t then
        if (splitOnSub fence3 t).length ≥ 3 then
          some (pyStrip ((splitOnSub fence3 t).getD 1 []))
        else none
      else none
    match extracted with
    | some e => if e ≠ [] ∧ jsonParses e then some e else storyBibleScan t
    | none => storyBibleScan t

/-- Last-resort bracket scan of `ScreenplayConverter._call_llm` (lines 530-541):
`start = find('{') if '{' in text else find('[')`. -/
def converterScan (t : Chars) : Option Chars :=
  let start := if containsChar t obrChar then findChar t obrChar else findChar t '['
  match start with
  | none => none
  | some s =>
    let ec := if t.getD s ' ' = obrChar then cbrChar else ']'
    match rfindChar t ec with
    | none => none
    | some e =>
      let ex := pySlice t s (e + 1)
      if jsonParses ex then some ex else none

/-- `ScreenplayConverter._call_llm` JSON extraction (lines 510-541). -/
def converterCoerce (t : Chars) : Option Chars :=
  if jsonParses t then some t
  else if containsSub sepJsonFence t then
    if (splitOnSub sepJsonFence t).length > 1 then
      let e := pyStrip ((splitOnSub fence3 ((splitOnSub sepJsonFence t).getD 1 [])).getD 0 [])
      if jsonParses e then some e else none
    else converterScan t
  else if containsSub fence3 t then
    if (splitOnSub fence3 t).length ≥ 3 then
      let e := pyStrip ((splitOnSub fence3 t).getD 1 [])
      if jsonParses e then some e else none
    else converterScan t
  else converterScan t

/-- Last-resort bracket scan of `SceneBreakdownExtractor._call_llm`
(lines 137-145): only `find('{')` / `rfind('}')` are tried. -/
def breakdownScan (t : Chars) : Option Chars :=
  match findChar t obrChar with
  | none => none
  | some s =>
    match rfindChar t cbrChar with
    | none => none
    | some e =>
      let ex := pySlice t s (e + 1)
      if jsonParses ex then some ex else none

/-- `SceneBreakdownExtractor._call_llm` JSON extraction (lines 121-145). -/
def breakdownCoerce (t : Chars) : Option Chars :=
  if jsonParses t then some t
  else if containsSub sepJsonFence t then
    let e := pyStrip ((splitOnSub fence3 ((splitOnSub sepJsonFence t).getD 1 [])).getD 0 [])
    if jsonParses e then some e else none
  else if containsSub fence3 t ∧ (splitOnSub fence3 t).length ≥ 3 then
    let e := pyStrip ((splitOnSub fence3 t).getD 1 [])
    if jsonParses e then some e else none
  else breakdownScan t

/-- The fenced-code-block wrapping used in the spec's idempotence property:
the serialized value inside a code block labeled json. -/
def fenceWrap (s : Chars) : Chars :=
  sepJsonFence ++ ('\n' :: (s ++ ('\n' :: fence3)))

/-! ## Claim C3: uniformity of the coercion cascade across call sites -/

/-- Index of the first opening bracket of either kind. -/
def firstBracketIdx : Chars → Option Nat
  | [] => none
  | c :: r => if c = '[' || c = obrChar then some 0 else (firstBracketIdx r).map (· + 1)

/-- Spec-modelled last resort, story-bible wording: scan for the first opening
bracket, choosing array vs. object by whichever occurs first, and take the
matching last closing bracket. -/
def lastResortFirstBracket (t : Chars) : Option Chars :=
  match firstBracketIdx t with
  | none => none
  | some i =>
    let close := if t.getD i ' ' = '[' then ']' else cbrChar
    match rfindChar t close with
    | none => none
    | some e =>
      let ex := pySlice t i (e + 1)
      if jsonParses ex then some ex else none

/-- Spec-modelled last resort, converter behaviour: prefer the object whenever
an opening brace occurs anywhere in the text, otherwise use the array. -/
def lastResortPreferObject (t : Chars) : Option Chars :=
  match findChar t obrChar with
  | some i =>
    match rfindChar t cbrChar with
    | none => none
    | some e =>
      let ex := pySlice t i (e + 1)
      if jsonParses ex then some ex else none
  | none =>
    match findChar t '[' with
    | some i =>
      match rfindChar t ']' with
      | none => none
      | some e =>
        let ex := pySlice t i (e + 1)
        if jsonParses ex then some ex else none
    | none => none

/-- Spec-modelled last resort, breakdown behaviour: only an object is ever
looked for. -/
def lastResortObjectOnly (t : Chars) : Option Chars :=
  match findChar t obrChar with
  | none => none
  | some s =>
    match rfindChar t cbrChar with
    | none => none
    | some e =>
      let ex := pySlice t s (e + 1)
      if jsonParses ex then some ex else none

theorem containsSub_of_prefix (sep t : Chars) (hne : sep ≠ []) (h : sep <+: t) :
    containsSub sep t = true := by
  cases t with
  | nil => exact absurd (List.prefix_nil.mp h) hne
  | cons x xs =>
    rw [containsSub_cons, List.isPrefixOf_iff_prefix.mpr h, Bool.true_or]

theorem findChar_getD (c : Char) : ∀ (t : Chars) (i : Nat),
    findChar t c = some i → t.getD i ' ' = c := by
  intro t
  induction t with
  | nil => intro i h; simp [findChar] at h
  | cons x xs ih =>
    intro i h
    unfold findChar at h
    by_cases hx : x = c
    · rw [if_pos hx] at h
      cases h
      simpa using hx
    · rw [if_neg hx] at h
      cases hfind : findChar xs c with
      | none => rw [hfind] at h; simp at h
      | some j =>
        rw [hfind] at h
        simp at h
        subst h
        simpa using ih j hfind

theorem containsChar_eq_findChar_isSome0 (c : Char) : ∀ (t : Chars),
    containsChar t c = (findChar t c).isSome := by
  intro t
  induction t with
  | nil => rfl
  | cons x xs ih =>
    unfold containsChar at ih ⊢
    by_cases hx : x = c
    · simp [findChar, hx, List.contains_cons]
    · simp only [List.contains_cons, findChar, if_neg hx]
      rw [show (c == x) = false by
        simp only [beq_eq_false_iff_ne, ne_eq]
        exact fun hEq => hx hEq.symm, Bool.false_or, ih]
      cases findChar xs c <;> simp

theorem containsChar_eq_findChar_isSome (c : Char) (t : Chars) :
    containsChar t c = (findChar t c).isSome :=
  containsChar_eq_findChar_isSome0 c t

theorem firstBracketIdx_eq : ∀ (t : Chars),
    firstBracketIdx t =
      (match findChar t '[', findChar t obrChar with
       | none, none => none
       | some i, none => some i
       | none, some j => some j
       | some i, some j => some (min i j)) := by
  intro t
  induction t with
  | nil => rfl
  | cons x xs ih =>
    by_cases h1 : x = '['
    · subst h1
      unfold firstBracketIdx findChar
      simp [show ('[' : Char) ≠ obrChar by decide]
      cases findChar xs obrChar <;> simp
    · by_cases h2 : x = obrChar
      · subst h2
        unfold firstBracketIdx findChar
        simp [show ¬(obrChar = '[') by decide]
        cases findChar xs '[' <;> simp
      · unfold firstBracketIdx findChar
        rw [show (decide (x = '[') || decide (x = obrChar)) = false by simp [h1, h2]]
        rw [if_neg h1, if_neg h2]
        simp only [Bool.false_eq_true, if_false]
        rw [ih]
        cases findChar xs '[' <;> cases findChar xs obrChar <;>
          simp [Nat.min_def] <;> split <;> simp <;> omega

/-! ## Claim C9: coercion-cascade idempotence on fenced serialized JSON -/

theorem serNat_mem_digit (n : Nat) : ∀ c ∈ serNat n, isDigitC c = true := by
  unfold serNat
  by_cases h0 : n = 0
  · subst h0
    intro c hc
    simp at hc
    subst hc
    decide
  · rw [if_neg h0]
    intro c hc
    simp only [List.mem_map, List.mem_reverse] at hc
    obtain ⟨d, hd, rfl⟩ := hc
    exact (digitChar_facts d (Nat.digits_lt_base (by norm_num) hd)).1

/-- Every serialized JSON value is non-empty and ends in a non-whitespace
character. -/
theorem serJson_last (v : Json) :
    ∃ c r, serJson v = r ++ [c] ∧ pySpace c = false := by
  cases v with
  | null => exact ⟨'l', ['n', 'u', 'l'], by simp [serJson], by decide⟩
  | bool b =>
    cases b
    · exact ⟨'e', ['f', 'a', 'l', 's'], by simp [serJson], by decide⟩
    · exact ⟨'e', ['t', 'r', 'u'], by simp [serJson], by decide⟩
  | num i =>
    have hmem : ∀ c ∈ serInt i, isDigitC c = true ∨ c = '-' := by
      cases i with
      | ofNat m =>
        intro c hc
        exact Or.inl (serNat_mem_digit m c (by simpa [serInt] using hc))
      | negSucc m =>
        intro c hc
        simp only [serInt, List.mem_cons] at hc
        rcases hc with rfl | hc
        · exact Or.inr rfl
        · exact Or.inl (serNat_mem_digit (m + 1) c hc)
    have hne : serInt i ≠ [] := by
      have := serInt_len_pos i
      intro h
      rw [h] at this
      simp at this
    obtain ⟨r, c, hrc⟩ := (List.eq_nil_or_concat' (serInt i)).resolve_left hne
    refine ⟨c, r, by simp [serJson, hrc], ?_⟩
    have hcmem : c ∈ serInt i := by
      rw [hrc]
      simp
    rcases hmem c hcmem with hd | rfl
    · exact (isDigitC_not_ws c hd).2
    · decide
  | str s =>
    exact ⟨'"', '"' :: escapeStr s, by simp [serJson], by decide⟩
  | arr a =>
    cases a with
    | nil => exact ⟨']', ['['], by simp [serJson], by decide⟩
    | cons h t =>
      exact ⟨']', '[' :: (serJson h ++ serArrTail t), by simp [serJson], by decide⟩
  | obj o =>
    cases o with
    | nil => exact ⟨cbrChar, [obrChar], by simp [serJson], by decide⟩
    | cons k v2 t =>
      exact ⟨cbrChar, obrChar :: (serMember k v2 ++ serObjTail t), by simp [serJson], by decide⟩

theorem fence3_facts : (∀ c ∈ fence3, c = btChar) ∧ fence3 ≠ [] ∧ ('\n' ∉ fence3) ∧
    sepJsonFence = fence3 ++ "json".toList := by decide

theorem parseValue_backtick (fuel : Nat) (r : Chars) :
    parseValue fuel (btChar :: r) = none := by
  cases fuel with
  | zero => rfl
  | succ fuel =>
    simp [parseValue, show btChar ≠ 'n' by decide, show btChar ≠ 't' by decide,
      show btChar ≠ 'f' by decide, show btChar ≠ '"' by decide,
      show btChar ≠ '[' by decide, show btChar ≠ obrChar by decide,
      show btChar ≠ '-' by decide, show isDigitC btChar = false by decide]

theorem jsonParses_fenceWrap (S : Chars) : jsonParses (fenceWrap S) = false := by
  have hshape : fenceWrap S = btChar :: ("``json".toList ++ ('\n' :: (S ++ ('\n' :: fence3)))) := by
    unfold fenceWrap
    rw [show sepJsonFence = btChar :: "``json".toList by decide]
    simp
  rw [hshape]
  unfold jsonParses jsonParse
  rw [show skipWs (btChar :: ("``json".toList ++ ('\n' :: (S ++ ('\n' :: fence3))))) =
      btChar :: ("``json".toList ++ ('\n' :: (S ++ ('\n' :: fence3)))) from
    skipWs_cons_not _ _ (by decide)]
  simp [parseValue_backtick]

/-- The wrapped core `'\n' :: S ++ ['\n']` contains no fence when `S` does not. -/
theorem wrap_core_no_fence (S : Chars) (hbt : containsSub fence3 S = false) :
    containsSub fence3 ('\n' :: (S ++ ['\n'])) = false := by
  rw [containsSub_cons, Bool.or_eq_false_iff]
  constructor
  · rw [show fence3 = btChar :: [btChar, btChar] by decide]
    show List.isPrefixOf (btChar :: [btChar, btChar]) ('\n' :: (S ++ ['\n'])) = false
    simp [List.isPrefixOf, show (btChar == '\n') = false by decide]
  · exact containsSub_append_single fence3 S '\n' hbt (by decide)

theorem wrap_core_last (S : Chars) : ∀ (h : ('\n' :: (S ++ ['\n'])) ≠ []),
    ('\n' :: (S ++ ['\n'])).getLast h ≠ btChar := by
  intro h
  have h1 : ('\n' :: (S ++ ['\n'])).getLast? = some '\n' := by
    rw [show ('\n' :: (S ++ ['\n'])) = ('\n' :: S) ++ ['\n'] by simp]
    exact List.getLast?_concat _
  have h2 : ('\n' :: (S ++ ['\n'])).getLast? =
      some (('\n' :: (S ++ ['\n'])).getLast h) := List.getLast?_eq_getLast ..
  rw [h1] at h2
  rw [← Option.some_inj.mp h2]
  decide

/-- The occurrences of ```` ``` ```` in the tail of the fence wrapping are limited to
the final fence, so ```` ```json ```` does not occur there. -/
theorem not_contains_sepJson_tail (S : Chars) (hbt : containsSub fence3 S = false) :
    containsSub sepJsonFence ('\n' :: (S ++ ('\n' :: fence3))) = false := by
  by_contra hc
  rw [Bool.not_eq_false, containsSub_iff] at hc
  obtain ⟨a, b, hab⟩ := hc
  have hsep : sepJsonFence = fence3 ++ "json".toList := fence3_facts.2.2.2
  rw [hsep] at hab
  have hc2 : "json".toList ++ b = [] := by
    refine trailing_occ_unique fence3 ('\n' :: (S ++ ['\n'])) a ("json".toList ++ b)
      fence3_facts.1 fence3_facts.2.1 (wrap_core_no_fence S hbt) (wrap_core_last S) ?_
    rw [show ('\n' :: (S ++ ['\n'])) ++ fence3 = '\n' :: (S ++ ('\n' :: fence3)) by simp]
    rw [hab]
    simp
  simp at hc2

/-! ## Claim C9: coercion cascade on fence-wrapped serializations -/

/-- Claim C9 does not hold for all JSON values: the string value ```` ``` ````
serializes to a text containing a fence, and the cascade in
`StoryBibleExtractor._call_llm` (which splits on ```` ``` ````) then extracts a
fragment that no longer parses, so the fence-wrapped serialization is rejected
outright instead of round-tripping. -/
theorem c9_counterexample :
    storyBibleCoerce (fenceWrap (serJson (Json.str ("```".toList)))) = none := by
  have hser : serJson (Json.str ("```".toList)) = "\"```\"".toList := by
    rw [show serJson (Json.str ("```".toList)) =
      '"' :: (escapeStr ("```".toList) ++ ['"']) by simp [serJson]]
    decide
  rw [hser]
  decide

/-- Claim C9 (amended): for every JSON value whose serialization does not itself
contain the triple-backtick fence, wrapping the serialization in a fenced code
block labeled json and running it through the coercion cascade of
`StoryBibleExtractor._call_llm` recovers the serialization, which parses back to
a value deep-equal to the original. -/
theorem c9_fence_roundtrip (v : Json)
    (hbt : containsSub fence3 (serJson v) = false) :
    storyBibleCoerce (fenceWrap (serJson v)) = some (serJson v) ∧
    jsonParse (serJson v) = some v := by
  refine ⟨?_, jsonParse_serJson v⟩
  obtain ⟨s0, S', hS, hst⟩ := serJson_head v
  obtain ⟨cl, rl, hSl, hlastws⟩ := serJson_last v
  have hglv : (s0 :: S').getLast (by simp) = cl := by
    have h1 : (s0 :: S').getLast? = some cl := by
      rw [← hS, hSl]
      exact List.getLast?_concat _
    have h2 : (s0 :: S').getLast? = some ((s0 :: S').getLast (by simp)) :=
      List.getLast?_eq_getLast ..
    rw [h1] at h2
    exact (Option.some_inj.mp h2).symm
  have hstrip : pyStrip ('\n' :: (serJson v ++ ['\n'])) = serJson v := by
    rw [hS]
    refine pyStrip_newline_wrap s0 S' (starterOk_props s0 hst).2.1 ?_
    rw [hglv]
    exact hlastws
  have htext : fenceWrap (serJson v) =
      sepJsonFence ++ ('\n' :: (serJson v ++ ('\n' :: fence3))) := rfl
  have h1 : jsonParses (fenceWrap (serJson v)) = false := jsonParses_fenceWrap (serJson v)
  have h2 : containsSub sepJsonFence (fenceWrap (serJson v)) = true := by
    rw [htext]
    exact containsSub_of_prefix _ _ (by decide) (List.prefix_append _ _)
  have h3 : splitOnSub sepJsonFence (fenceWrap (serJson v)) =
      [[], '\n' :: (serJson v ++ ('\n' :: fence3))] := by
    rw [htext]
    exact splitOnSub_prefix _ _ (by decide) (not_contains_sepJson_tail (serJson v) hbt)
  have h4 : splitOnSub fence3 ('\n' :: (serJson v ++ ('\n' :: fence3))) =
      ['\n' :: (serJson v ++ ['\n']), []] := by
    rw [show '\n' :: (serJson v ++ ('\n' :: fence3)) =
      ('\n' :: (serJson v ++ ['\n'])) ++ (fence3 ++ []) by simp]
    rw [splitOnSub_first_occ fence3 fence3_facts.1 fence3_facts.2.1
      ('\n' :: (serJson v ++ ['\n'])) (wrap_core_no_fence (serJson v) hbt)
      (wrap_core_last (serJson v)) []]
    rw [splitOnSub_of_not_contains fence3 [] fence3_facts.2.1 (by decide)]
  have hne : serJson v ≠ [] := by rw [hS]; simp
  have hparses : jsonParses (serJson v) = true := by
    simp [jsonParses, jsonParse_serJson]
  simp [storyBibleCoerce, h1, h2, h3, h4, hstrip, hne, hparses]

theorem c9_fence_roundtrip_witness :
    containsSub fence3 (serJson (Json.bool true)) = false ∧
    (storyBibleCoerce (fenceWrap (serJson (Json.bool true))) =
        some (serJson (Json.bool true)) ∧
      jsonParse (serJson (Json.bool true)) = some (Json.bool true)) := by
  have hser : serJson (Json.bool true) = "true".toList := by simp [serJson]
  refine ⟨?_, c9_fence_roundtrip (Json.bool true) ?_⟩ <;> rw [hser] <;> decide

/-! ## Claim C3: the last-resort bracket scans of the three call sites -/

theorem breakdownScan_eq (t : Chars) : breakdownScan t = lastResortObjectOnly t := rfl

theorem converterScan_eq (t : Chars) : converterScan t = lastResortPreferObject t := by
  unfold converterScan lastResortPreferObject
  rw [containsChar_eq_findChar_isSome]
  cases hofind : findChar t obrChar with
  | some i =>
    have hgd : t[i]?.getD ' ' = obrChar := by
      have h := findChar_getD obrChar t i hofind
      rwa [List.getD_eq_getElem?_getD] at h
    simp [hgd]
  | none =>
    cases hafind : findChar t '[' with
    | none => simp [hafind]
    | some i =>
      have hgd : t[i]?.getD ' ' = '[' := by
        have h := findChar_getD '[' t i hafind
        rwa [List.getD_eq_getElem?_getD] at h
      simp [hafind, hgd, show ¬('[' = obrChar) by decide]

theorem storyBibleScan_eq (t : Chars) : storyBibleScan t = lastResortFirstBracket t := by
  unfold storyBibleScan lastResortFirstBracket
  rw [firstBracketIdx_eq]
  cases hafind : findChar t '[' with
  | none =>
    cases hofind : findChar t obrChar with
    | none => rfl
    | some so =>
      have hgd : t[so]?.getD ' ' = obrChar := by
        have h := findChar_getD obrChar t so hofind
        rwa [List.getD_eq_getElem?_getD] at h
      simp [hgd, show ¬(obrChar = '[') by decide]
  | some sa =>
    cases hofind : findChar t obrChar with
    | none =>
      have hgd : t[sa]?.getD ' ' = '[' := by
        have h := findChar_getD '[' t sa hafind
        rwa [List.getD_eq_getElem?_getD] at h
      simp [hgd]
    | some so =>
      by_cases hmin : min sa so = sa
      · have hgd : t[sa]?.getD ' ' = '[' := by
          have h := findChar_getD '[' t sa hafind
          rwa [List.getD_eq_getElem?_getD] at h
        simp [hmin, hgd]
      · have hmin2 : min sa so = so := by omega
        have hne : ¬(so = sa) := fun h => hmin (by rw [hmin2, h])
        have hgd : t[so]?.getD ' ' = obrChar := by
          have h := findChar_getD obrChar t so hofind
          rwa [List.getD_eq_getElem?_getD] at h
        simp [hmin2, hne, hgd, show ¬(obrChar = '[') by decide]

theorem not_contains_sepJson (t : Chars) (hf : containsSub fence3 t = false) :
    containsSub sepJsonFence t = false := by
  cases hc : containsSub sepJsonFence t
  · rfl
  · rw [fence3_facts.2.2.2] at hc
    have h2 := containsSub_mono fence3 ("json".toList) t hc
    rw [hf] at h2
    exact absurd h2 (by decide)

theorem storyBibleCoerce_no_fence (t : Chars) (hp : jsonParses t = false)
    (hf : containsSub fence3 t = false) : storyBibleCoerce t = storyBibleScan t := by
  simp [storyBibleCoerce, hp, hf, not_contains_sepJson t hf]

theorem converterCoerce_no_fence (t : Chars) (hp : jsonParses t = false)
    (hf : containsSub fence3 t = false) : converterCoerce t = converterScan t := by
  simp [converterCoerce, hp, hf, not_contains_sepJson t hf]

theorem breakdownCoerce_no_fence (t : Chars) (hp : jsonParses t = false)
    (hf : containsSub fence3 t = false) : breakdownCoerce t = breakdownScan t := by
  simp [breakdownCoerce, hp, hf, not_contains_sepJson t hf]

/-- Claim C3 does not hold: the three `_call_llm` coercion cascades are not the
same function, and only the story-bible site picks array vs. object by whichever
opening bracket occurs first. On a response containing an array before an
object, the story-bible site recovers the array while the converter and
breakdown sites recover the object. -/
theorem c3_counterexample :
    storyBibleCoerce ("oops [1,2] \x7b\"a\":1\x7d".toList) = some ("[1,2]".toList) ∧
    converterCoerce ("oops [1,2] \x7b\"a\":1\x7d".toList) =
      some ("\x7b\"a\":1\x7d".toList) ∧
    breakdownCoerce ("oops [1,2] \x7b\"a\":1\x7d".toList) =
      some ("\x7b\"a\":1\x7d".toList) ∧
    storyBibleCoerce ("oops [1,2] \x7b\"a\":1\x7d".toList) ≠
      converterCoerce ("oops [1,2] \x7b\"a\":1\x7d".toList) := by
  refine ⟨by decide, by decide, by decide, by decide⟩

/-- Claim C3 (amended): on any response text that does not itself parse as JSON
and contains no code fence, the three `_call_llm` cascades reduce to three
different last-resort scans: the story-bible site selects array vs. object by
whichever opening bracket occurs first, the converter site prefers the object
whenever an opening brace occurs anywhere, and the breakdown site only ever
looks for an object. -/
theorem c3_last_resort_scans (t : Chars) (hp : jsonParses t = false)
    (hf : containsSub fence3 t = false) :
    storyBibleCoerce t = lastResortFirstBracket t ∧
    converterCoerce t = lastResortPreferObject t ∧
    breakdownCoerce t = lastResortObjectOnly t := by
  refine ⟨?_, ?_, ?_⟩
  · rw [storyBibleCoerce_no_fence t hp hf, storyBibleScan_eq]
  · rw [converterCoerce_no_fence t hp hf, converterScan_eq]
  · rw [breakdownCoerce_no_fence t hp hf, breakdownScan_eq]

theorem c3_last_resort_scans_witness :
    jsonParses ("no json here [7] \x7b\x7d".toList) = false ∧
    containsSub fence3 ("no json here [7] \x7b\x7d".toList) = false ∧
    (storyBibleCoerce ("no json here [7] \x7b\x7d".toList) =
        lastResortFirstBracket ("no json here [7] \x7b\x7d".toList) ∧
      converterCoerce ("no json here [7] \x7b\x7d".toList) =
        lastResortPreferObject ("no json here [7] \x7b\x7d".toList) ∧
      breakdownCoerce ("no json here [7] \x7b\x7d".toList) =
        lastResortObjectOnly ("no json here [7] \x7b\x7d".toList)) :=
  ⟨by decide, by decide,
    c3_last_resort_scans ("no json here [7] \x7b\x7d".toList) (by decide) (by decide)⟩

/-! ## Converter models: act structure, act position, scene renumbering -/

/-- `ActStructure` (src/extraction/models.py lines 95-100): four chunk-index
ranges, each a pair of ints; no further constraint is declared on the model. -/
structure ActStructure where
  act_one_chunk_range : Int × Int
  act_two_a_chunk_range : Int × Int
  act_two_b_chunk_range : Int × Int
  act_three_chunk_range : Int × Int
deriving DecidableEq

/-- `ScreenplayConverter._get_act_position` (converter.py lines 281-290). Only
the fields read by the embedded functions are carried on the scene model. -/
def getActPosition (chunk_idx : Int) (act_structure : ActStructure) : String :=
  if act_structure.act_one_chunk_range.1 ≤ chunk_idx ∧
      chunk_idx ≤ act_structure.act_one_chunk_range.2 then "Act 1"
  else if act_structure.act_two_a_chunk_range.1 ≤ chunk_idx ∧
      chunk_idx ≤ act_structure.act_two_a_chunk_range.2 then "Act 2A"
  else if act_structure.act_two_b_chunk_range.1 ≤ chunk_idx ∧
      chunk_idx ≤ act_structure.act_two_b_chunk_range.2 then "Act 2B"
  else "Act 3"

/-- `ScreenplayScene` (src/extraction/models.py lines 78-92), restricted to the
fields the embedded converter and breakdown functions read or write. -/
structure ScreenplayScene where
  scene_id : Chars
  scene_number : Nat
  slug_line : Chars
  emotional_beat : Chars
  dialogue : List Chars
  characters_present : List Chars
deriving DecidableEq

/-- `ScreenplayConverter._renumber_scenes` (converter.py lines 475-479):
`for i, scene in enumerate(scenes, start=1): scene.scene_number = i`. -/
def renumberScenesFrom (i : Nat) : List ScreenplayScene → List ScreenplayScene
  | [] => []
  | s :: rest => { s with scene_number := i } :: renumberScenesFrom (i + 1) rest

def renumberScenes (scenes : List ScreenplayScene) : List ScreenplayScene :=
  renumberScenesFrom 1 scenes

/-- Python dict subscript `obj[key]` on a parsed JSON object. -/
def jsonGet : JsonObj → Chars → Option Json
  | JsonObj.nil, _ => none
  | JsonObj.cons k v rest, key => if k = key then some v else jsonGet rest key

/-- `tuple(act_data[k])` followed by pydantic validation against
`Tuple[int, int]`: exactly two integer entries. -/
def rangeOfJson : Json → Option (Int × Int)
  | Json.arr (JsonArr.cons (Json.num a) (JsonArr.cons (Json.num b) JsonArr.nil)) =>
    some (a, b)
  | _ => none

/-- `ScreenplayConverter._determine_act_structure` (converter.py lines 255-279)
after `json.loads`: the four ranges are read off the parsed response and packed
into `ActStructure`; nothing else is checked. -/
def determineActStructure (act_data : Json) : Option ActStructure :=
  match act_data with
  | Json.obj o =>
    match jsonGet o ("act_one_chunk_range".toList),
          jsonGet o ("act_two_a_chunk_range".toList),
          jsonGet o ("act_two_b_chunk_range".toList),
          jsonGet o ("act_three_chunk_range".toList) with
    | some j1, some j2, some j3, some j4 =>
      match rangeOfJson j1, rangeOfJson j2, rangeOfJson j3, rangeOfJson j4 with
      | some r1, some r2, some r3, some r4 => some ⟨r1, r2, r3, r4⟩
      | _, _, _, _ => none
    | _, _, _, _ => none
  | _ => none

/-- A well-formed act-structure response carrying the four given ranges. -/
def mkActJson (p1 p2 p3 p4 : Int × Int) : Json :=
  Json.obj (JsonObj.cons ("act_one_chunk_range".toList)
    (Json.arr (JsonArr.cons (Json.num p1.1) (JsonArr.cons (Json.num p1.2) JsonArr.nil)))
    (JsonObj.cons ("act_two_a_chunk_range".toList)
      (Json.arr (JsonArr.cons (Json.num p2.1) (JsonArr.cons (Json.num p2.2) JsonArr.nil)))
      (JsonObj.cons ("act_two_b_chunk_range".toList)
        (Json.arr (JsonArr.cons (Json.num p3.1) (JsonArr.cons (Json.num p3.2) JsonArr.nil)))
        (JsonObj.cons ("act_three_chunk_range".toList)
          (Json.arr (JsonArr.cons (Json.num p4.1) (JsonArr.cons (Json.num p4.2) JsonArr.nil)))
          JsonObj.nil))))

/-- The spec's shape contract on an act structure for `total_chunks` chunks:
the four ranges are contiguous, non-overlapping, monotonically increasing, and
jointly cover `[0, total_chunks - 1]` exactly once. Worded from the spec, for
comparison with `determineActStructure`. -/
def validActStructure (total_chunks : Int) (a : ActStructure) : Prop :=
  a.act_one_chunk_range.1 = 0 ∧
  a.act_one_chunk_range.1 ≤ a.act_one_chunk_range.2 ∧
  a.act_two_a_chunk_range.1 = a.act_one_chunk_range.2 + 1 ∧
  a.act_two_a_chunk_range.1 ≤ a.act_two_a_chunk_range.2 ∧
  a.act_two_b_chunk_range.1 = a.act_two_a_chunk_range.2 + 1 ∧
  a.act_two_b_chunk_range.1 ≤ a.act_two_b_chunk_range.2 ∧
  a.act_three_chunk_range.1 = a.act_two_b_chunk_range.2 + 1 ∧
  a.act_three_chunk_range.1 ≤ a.act_three_chunk_range.2 ∧
  a.act_three_chunk_range.2 = total_chunks - 1

/-! ## Checkpoint store model -/

/-- A checkpoint file together with fault flags for each I/O primitive. -/
structure FsFile where
  contents : Option Chars
  readFails : Bool
  writeFails : Bool
  deleteFails : Bool
deriving DecidableEq

def fsWrite (f : FsFile) (data : Chars) : Except Unit FsFile :=
  if f.writeFails then Except.error () else Except.ok { f with contents := some data }

def fsRead (f : FsFile) : Except Unit Chars :=
  match f.contents with
  | none => Except.error ()
  | some text => if f.readFails then Except.error () else Except.ok text

def fsUnlink (f : FsFile) : Except Unit FsFile :=
  match f.contents with
  | none => Except.error ()
  | some _ => if f.deleteFails then Except.error () else Except.ok { f with contents := none }

def fsExists (f : FsFile) : Bool := f.contents.isSome

/-- `ExtractionCheckpoint.save` (checkpoint.py lines 25-36): the write sits in a
try/except, so a failed write is logged and swallowed. -/
def cpSave (f : FsFile) (data : Chars) : Except Unit FsFile :=
  Except.ok (match fsWrite f data with
    | Except.ok f2 => f2
    | Except.error _ => f)

/-- `ExtractionCheckpoint.load` (checkpoint.py lines 38-55): absent file gives
`None`; a read or parse failure is caught and also gives `None`. -/
def cpLoad (f : FsFile) : Except Unit (Option Json) :=
  if fsExists f then
    Except.ok (match fsRead f with
      | Except.error _ => none
      | Except.ok text => jsonParse text)
  else Except.ok none

/-- `ExtractionCheckpoint.clear` (checkpoint.py lines 57-61): the `unlink` call
is not wrapped in try/except, so its failure propagates. -/
def cpClear (f : FsFile) : Except Unit FsFile :=
  if fsExists f then fsUnlink f else Except.ok f

/-- `ScreenplayCheckpoint.save` (converter.py lines 39-47), a verbatim
duplicate of the extraction version. -/
def scpSave (f : FsFile) (data : Chars) : Except Unit FsFile :=
  Except.ok (match fsWrite f data with
    | Except.ok f2 => f2
    | Except.error _ => f)

/-- `ScreenplayCheckpoint.load` (converter.py lines 49-60). -/
def scpLoad (f : FsFile) : Except Unit (Option Json) :=
  if fsExists f then
    Except.ok (match fsRead f with
      | Except.error _ => none
      | Except.ok text => jsonParse text)
  else Except.ok none

/-- `ScreenplayCheckpoint.clear` (converter.py lines 62-66): again an
unguarded `unlink`. -/
def scpClear (f : FsFile) : Except Unit FsFile :=
  if fsExists f then fsUnlink f else Except.ok f

/-! ## Claims C10, C8, C5, C7 -/

/-- Claim C10: `_get_act_position` is total and silently defaulting — for every
chunk index and every `ActStructure`, it returns one of the four labels, and any
index outside the act-one, act-two-A and act-two-B ranges (gaps and indices past
act three included) is labeled "Act 3". -/
theorem c10_act_position_total_default (chunk_idx : Int) (act_structure : ActStructure) :
    (getActPosition chunk_idx act_structure = "Act 1" ∨
     getActPosition chunk_idx act_structure = "Act 2A" ∨
     getActPosition chunk_idx act_structure = "Act 2B" ∨
     getActPosition chunk_idx act_structure = "Act 3") ∧
    (¬(act_structure.act_one_chunk_range.1 ≤ chunk_idx ∧
        chunk_idx ≤ act_structure.act_one_chunk_range.2) →
     ¬(act_structure.act_two_a_chunk_range.1 ≤ chunk_idx ∧
        chunk_idx ≤ act_structure.act_two_a_chunk_range.2) →
     ¬(act_structure.act_two_b_chunk_range.1 ≤ chunk_idx ∧
        chunk_idx ≤ act_structure.act_two_b_chunk_range.2) →
     getActPosition chunk_idx act_structure = "Act 3") := by
  constructor
  · unfold getActPosition
    split
    · exact Or.inl rfl
    · split
      · exact Or.inr (Or.inl rfl)
      · split
        · exact Or.inr (Or.inr (Or.inl rfl))
        · exact Or.inr (Or.inr (Or.inr rfl))
  · intro h1 h2 h3
    unfold getActPosition
    rw [if_neg h1, if_neg h2, if_neg h3]

theorem c10_act_position_total_default_witness :
    getActPosition 3 ⟨(0, 1), (5, 6), (7, 8), (9, 9)⟩ = "Act 3" :=
  (c10_act_position_total_default 3 ⟨(0, 1), (5, 6), (7, 8), (9, 9)⟩).2
    (by decide) (by decide) (by decide)

theorem renumberScenesFrom_map (i : Nat) (scenes : List ScreenplayScene) :
    (renumberScenesFrom i scenes).map ScreenplayScene.scene_number =
      List.range' i scenes.length := by
  induction scenes generalizing i with
  | nil => rfl
  | cons s rest ih => simp [renumberScenesFrom, List.range', ih]

/-- Claim C8: after finalization, the `scene_number` values of the N scenes in
the resulting screenplay are exactly 1..N in list order, with no gaps or
duplicates, whatever numbers the per-chunk steps (or a hydrated checkpoint)
produced. -/
theorem c8_renumber_scenes (scenes : List ScreenplayScene) :
    (renumberScenes scenes).map ScreenplayScene.scene_number =
      List.range' 1 scenes.length :=
  renumberScenesFrom_map 1 scenes

/-- Claim C5 does not hold: `_determine_act_structure` accepts four ranges that
are neither contiguous, monotone, nor covering — no structural validation
happens before the structure is used. -/
theorem c5_counterexample :
    determineActStructure (mkActJson (5, 2) (5, 2) (5, 2) (5, 2)) =
      some ⟨(5, 2), (5, 2), (5, 2), (5, 2)⟩ ∧
    ¬ validActStructure 10 ⟨(5, 2), (5, 2), (5, 2), (5, 2)⟩ :=
  ⟨rfl, by unfold validActStructure; decide⟩

/-- Claim C5 (amended): `_determine_act_structure` packs whatever four
two-integer ranges the parsed response lists into the returned `ActStructure`
unchanged; the shape contract of the spec is not checked. -/
theorem c5_no_structural_validation (p1 p2 p3 p4 : Int × Int) :
    determineActStructure (mkActJson p1 p2 p3 p4) = some ⟨p1, p2, p3, p4⟩ := rfl

/-- Claim C7 does not hold in full: `clear` calls `unlink` outside any
try/except in both checkpoint classes, so a delete failure propagates. -/
theorem c7_counterexample :
    cpClear ⟨some [], false, false, true⟩ = Except.error () ∧
    scpClear ⟨some [], false, false, true⟩ = Except.error () :=
  ⟨rfl, rfl⟩

/-- Claim C7 (amended): for both checkpoint classes, `save` never raises (a
write failure is swallowed), `load` never raises and returns `None` when the
file is absent or its contents fail to parse, but `clear` only avoids raising
when the delete primitive does not fail. -/
theorem c7_checkpoint_io (f : FsFile) (data : Chars) :
    (∃ f2, cpSave f data = Except.ok f2) ∧
    (∃ r, cpLoad f = Except.ok r) ∧
    (f.contents = none → cpLoad f = Except.ok none) ∧
    (∀ text, f.contents = some text → jsonParse text = none → f.readFails = false →
      cpLoad f = Except.ok none) ∧
    (f.deleteFails = false → ∃ f2, cpClear f = Except.ok f2) ∧
    (∃ f2, scpSave f data = Except.ok f2) ∧
    (∃ r, scpLoad f = Except.ok r) ∧
    (f.deleteFails = false → ∃ f2, scpClear f = Except.ok f2) := by
  refine ⟨⟨_, rfl⟩, ?_, ?_, ?_, ?_, ⟨_, rfl⟩, ?_, ?_⟩
  · unfold cpLoad
    split
    · exact ⟨_, rfl⟩
    · exact ⟨none, rfl⟩
  · intro h
    simp [cpLoad, fsExists, h]
  · intro text htext hparse hrf
    simp [cpLoad, fsExists, htext, fsRead, hrf, hparse]
  · intro hdf
    cases hc : f.contents with
    | none => exact ⟨f, by simp [cpClear, fsExists, hc]⟩
    | some text =>
      exact ⟨⟨none, f.readFails, f.writeFails, false⟩,
        by simp [cpClear, fsExists, hc, fsUnlink, hdf]⟩
  · unfold scpLoad
    split
    · exact ⟨_, rfl⟩
    · exact ⟨none, rfl⟩
  · intro hdf
    cases hc : f.contents with
    | none => exact ⟨f, by simp [scpClear, fsExists, hc]⟩
    | some text =>
      exact ⟨⟨none, f.readFails, f.writeFails, false⟩,
        by simp [scpClear, fsExists, hc, fsUnlink, hdf]⟩

theorem c7_checkpoint_io_witness :
    cpLoad ⟨some ("x".toList), false, false, false⟩ = Except.ok none ∧
    (∃ f2, cpClear ⟨some ("x".toList), false, false, false⟩ = Except.ok f2) :=
  ⟨(c7_checkpoint_io ⟨some ("x".toList), false, false, false⟩ []).2.2.2.1
      ("x".toList) rfl (by decide) rfl,
    (c7_checkpoint_io ⟨some ("x".toList), false, false, false⟩ []).2.2.2.2.1 rfl⟩

/-! ## Scene breakdown models and `process_scene` -/

/-- `VisualComposition` (src/extraction/models.py lines 117-125): seven
required string fields. -/
structure VisualComposition where
  key_moment_description : Chars
  foreground : Chars
  midground : Chars
  background : Chars
  lighting : Chars
  camera_movement : Chars
  colour_palette : Chars
deriving DecidableEq

/-- `SceneBreakdown` (src/extraction/models.py lines 128-152), without the
freshly drawn `breakdown_id` UUID; dicts are association lists. -/
structure SceneBreakdown where
  scene_id : Chars
  scene_number : Nat
  slug_line : Chars
  emotional_beat : Chars
  narrative_purpose : Chars
  composition : VisualComposition
  characters_with_descriptions : List (Chars × Chars)
  location_visual_description : Chars
  props_and_set_dressing : List Chars
  ambient_sound : Chars
  dialogue_present : Bool
  music_mood : Chars
  special_requirements : List Chars
  estimated_clip_count : Int
  continuity_notes : Chars
  prompt_ready : Bool
deriving DecidableEq

/-- `breakdown_data.get(key, dflt)` validated against a `str` field. -/
def jGetStr (o : JsonObj) (key dflt : Chars) : Option Chars :=
  match jsonGet o key with
  | none => some dflt
  | some (Json.str s) => some s
  | some _ => none

/-- `breakdown_data.get(key, dflt)` validated against a `bool` field. -/
def jGetBool (o : JsonObj) (key : Chars) (dflt : Bool) : Option Bool :=
  match jsonGet o key with
  | none => some dflt
  | some (Json.bool b) => some b
  | some _ => none

/-- `breakdown_data.get(key, dflt)` validated against an `int` field. -/
def jGetInt (o : JsonObj) (key : Chars) (dflt : Int) : Option Int :=
  match jsonGet o key with
  | none => some dflt
  | some (Json.num i) => some i
  | some _ => none

def strDictOf : JsonObj → Option (List (Chars × Chars))
  | JsonObj.nil => some []
  | JsonObj.cons k (Json.str s) rest => (strDictOf rest).map ((k, s) :: ·)
  | _ => none

/-- `breakdown_data.get(key, {})` validated against `Dict[str, str]`. -/
def jGetStrDict (o : JsonObj) (key : Chars) : Option (List (Chars × Chars)) :=
  match jsonGet o key with
  | none => some []
  | some (Json.obj d) => strDictOf d
  | some _ => none

def strListOf : JsonArr → Option (List Chars)
  | JsonArr.nil => some []
  | JsonArr.cons (Json.str s) rest => (strListOf rest).map (s :: ·)
  | _ => none

/-- `breakdown_data.get(key, [])` validated against `List[str]`. -/
def jGetStrList (o : JsonObj) (key : Chars) : Option (List Chars) :=
  match jsonGet o key with
  | none => some []
  | some (Json.arr a) => strListOf a
  | some _ => none

/-- `VisualComposition(**breakdown_data.get('composition', \x7b\x7d))`:
construction succeeds exactly when all seven string fields are present. -/
def compositionFromJson : Json → Option VisualComposition
  | Json.obj o =>
    match jsonGet o ("key_moment_description".toList), jsonGet o ("foreground".toList),
          jsonGet o ("midground".toList), jsonGet o ("background".toList),
          jsonGet o ("lighting".toList), jsonGet o ("camera_movement".toList),
          jsonGet o ("colour_palette".toList) with
    | some (Json.str a), some (Json.str b), some (Json.str c), some (Json.str d),
      some (Json.str e), some (Json.str g), some (Json.str h) =>
      some ⟨a, b, c, d, e, g, h⟩
    | _, _, _, _, _, _, _ => none
  | _ => none

/-- `SceneBreakdownExtractor.process_scene` (scene_breakdown.py lines 67-102)
applied to the text `_call_llm` returned: `none` is an escaping exception
(`json.loads` failure or pydantic validation error). -/
def processScene (scene : ScreenplayScene) (result : Chars) : Option SceneBreakdown := do
  let breakdown_data ← jsonParse result
  match breakdown_data with
  | Json.obj o => do
    let comp ← compositionFromJson (match jsonGet o ("composition".toList) with
      | none => Json.obj JsonObj.nil
      | some j => j)
    let emotional_beat ← jGetStr o ("emotional_beat".toList) scene.emotional_beat
    let narrative_purpose ← jGetStr o ("narrative_purpose".toList) []
    let cwd ← jGetStrDict o ("characters_with_descriptions".toList)
    let lvd ← jGetStr o ("location_visual_description".toList) []
    let props ← jGetStrList o ("props_and_set_dressing".toList)
    let ambient ← jGetStr o ("ambient_sound".toList) []
    let dp ← jGetBool o ("dialogue_present".toList) (!scene.dialogue.isEmpty)
    let mm ← jGetStr o ("music_mood".toList) []
    let sr ← jGetStrList o ("special_requirements".toList)
    let ecc ← jGetInt o ("estimated_clip_count".toList) 1
    let cn ← jGetStr o ("continuity_notes".toList) []
    let pr ← jGetBool o ("prompt_ready".toList) true
    some ⟨scene.scene_id, scene.scene_number, scene.slug_line, emotional_beat,
      narrative_purpose, comp, cwd, lvd, props, ambient, dp, mm, sr, ecc, cn, pr⟩
  | _ => none

def c1Scene : ScreenplayScene :=
  ⟨"s1".toList, 7, "INT. HALL - DAY".toList, "beat".toList, [], ["ALICE".toList]⟩

def c1Comp : VisualComposition :=
  ⟨"x".toList, "x".toList, "x".toList, "x".toList, "x".toList, "x".toList, "x".toList⟩

/-- A response supplying only a full composition: every other key, including
`prompt_ready`, is missing. -/
def c1Data : Json :=
  Json.obj (JsonObj.cons ("composition".toList)
    (Json.obj (JsonObj.cons ("key_moment_description".toList) (Json.str ("x".toList))
      (JsonObj.cons ("foreground".toList) (Json.str ("x".toList))
        (JsonObj.cons ("midground".toList) (Json.str ("x".toList))
          (JsonObj.cons ("background".toList) (Json.str ("x".toList))
            (JsonObj.cons ("lighting".toList) (Json.str ("x".toList))
              (JsonObj.cons ("camera_movement".toList) (Json.str ("x".toList))
                (JsonObj.cons ("colour_palette".toList) (Json.str ("x".toList))
                  JsonObj.nil))))))))
    JsonObj.nil)

def c1Expected : SceneBreakdown :=
  ⟨"s1".toList, 7, "INT. HALL - DAY".toList, "beat".toList, [], c1Comp,
    [], [], [], [], false, [], [], 1, [], true⟩

/-- Claim C1 is violated by the code: `process_scene` takes `prompt_ready`
from the response with default `True` and performs no completeness check, so a
breakdown can carry `prompt_ready = true` while a present character has no
entry in `characters_with_descriptions` and `location_visual_description` is
empty. -/
theorem c1_prompt_ready_unchecked :
    processScene c1Scene (serJson c1Data) = some c1Expected ∧
    c1Expected.prompt_ready = true ∧
    c1Scene.characters_present ≠ [] ∧
    c1Expected.characters_with_descriptions = [] ∧
    c1Expected.location_visual_description = [] := by
  refine ⟨?_, rfl, by decide, rfl, rfl⟩
  unfold processScene
  rw [jsonParse_serJson]
  rfl

/-! ## Retry policy of the three `_call_llm` loops -/

/-- One attempt's outcome as seen by the retry loop: the call chain either
produces text or raises an exception whose `str(e)` is `msg`. -/
inductive CallResult where
  | success (text : Chars)
  | failure (msg : Chars)
deriving DecidableEq

/-- How a `_call_llm` invocation ends. `reraised` is a bare `raise` of the
original exception; `extractionError` is the typed `ExtractionError`. -/
inductive LlmOutcome where
  | ok (text : Chars)
  | extractionError (msg : Chars)
  | reraised (msg : Chars)
deriving DecidableEq

def isOverload (msg : Chars) : Bool :=
  containsSub ("overloaded_error".toList) msg || containsSub ("529".toList) msg

def isRateLimit (msg : Chars) : Bool :=
  containsSub ("rate_limit_error".toList) msg || containsSub ("429".toList) msg

/-- `StoryBibleExtractor._call_llm` retry loop (story_bible_extractor.py lines
483-589), over an oracle giving each attempt's outcome; `max_retries = 10`,
`base_delay = 2`; the second component lists the sleeps taken. Both exhaustion
branches raise `ExtractionError`. -/
def storyAttempts (oracle : Nat → CallResult) : Nat → Nat → LlmOutcome × List Nat
  | _, 0 => (LlmOutcome.extractionError [], [])
  | attempt, fuel + 1 =>
    match oracle attempt with
    | CallResult.success text => (LlmOutcome.ok text, [])
    | CallResult.failure msg =>
      if isOverload msg || isRateLimit msg then
        if attempt < 10 - 1 then
          let w := min (2 * 2 ^ attempt) 60
          let r := storyAttempts oracle (attempt + 1) fuel
          (r.1, w :: r.2)
        else (LlmOutcome.extractionError msg, [])
      else
        if attempt < 3 then
          let w := 2 * (attempt + 1)
          let r := storyAttempts oracle (attempt + 1) fuel
          (r.1, w :: r.2)
        else (LlmOutcome.extractionError msg, [])

def storyCallLlm (oracle : Nat → CallResult) : LlmOutcome × List Nat :=
  storyAttempts oracle 0 10

/-- `ScreenplayConverter._call_llm` retry loop (converter.py lines 545-565):
identical schedule, but exhaustion ends in a bare `raise`, re-raising the
original exception instead of `ExtractionError`. -/
def converterAttempts (oracle : Nat → CallResult) : Nat → Nat → LlmOutcome × List Nat
  | _, 0 => (LlmOutcome.reraised [], [])
  | attempt, fuel + 1 =>
    match oracle attempt with
    | CallResult.success text => (LlmOutcome.ok text, [])
    | CallResult.failure msg =>
      if isOverload msg || isRateLimit msg then
        if attempt < 10 - 1 then
          let w := min (2 * 2 ^ attempt) 60
          let r := converterAttempts oracle (attempt + 1) fuel
          (r.1, w :: r.2)
        else (LlmOutcome.reraised msg, [])
      else
        if attempt < 3 then
          let w := 2 * (attempt + 1)
          let r := converterAttempts oracle (attempt + 1) fuel
          (r.1, w :: r.2)
        else (LlmOutcome.reraised msg, [])

def converterCallLlm (oracle : Nat → CallResult) : LlmOutcome × List Nat :=
  converterAttempts oracle 0 10

/-- `SceneBreakdownExtractor._call_llm` retry loop (scene_breakdown.py lines
147-166): same schedule as the converter, ending in a bare `raise`. -/
def breakdownAttempts (oracle : Nat → CallResult) : Nat → Nat → LlmOutcome × List Nat
  | _, 0 => (LlmOutcome.reraised [], [])
  | attempt, fuel + 1 =>
    match oracle attempt with
    | CallResult.success text => (LlmOutcome.ok text, [])
    | CallResult.failure msg =>
      if isOverload msg || isRateLimit msg then
        if attempt < 10 - 1 then
          let w := min (2 * 2 ^ attempt) 60
          let r := breakdownAttempts oracle (attempt + 1) fuel
          (r.1, w :: r.2)
        else (LlmOutcome.reraised msg, [])
      else
        if attempt < 3 then
          let w := 2 * (attempt + 1)
          let r := breakdownAttempts oracle (attempt + 1) fuel
          (r.1, w :: r.2)
        else (LlmOutcome.reraised msg, [])

def breakdownCallLlm (oracle : Nat → CallResult) : LlmOutcome × List Nat :=
  breakdownAttempts oracle 0 10

/-- Claim C4 does not hold at every site: when retries are exhausted, the
converter and breakdown loops re-raise the original exception rather than
raising the typed `ExtractionError`; only the story-bible loop raises it. -/
theorem c4_counterexample :
    converterCallLlm (fun _ => CallResult.failure ("boom".toList)) =
      (LlmOutcome.reraised ("boom".toList), [2, 4, 6]) ∧
    breakdownCallLlm (fun _ => CallResult.failure ("boom".toList)) =
      (LlmOutcome.reraised ("boom".toList), [2, 4, 6]) ∧
    storyCallLlm (fun _ => CallResult.failure ("boom".toList)) =
      (LlmOutcome.extractionError ("boom".toList), [2, 4, 6]) ∧
    LlmOutcome.reraised ("boom".toList) ≠
      LlmOutcome.extractionError ("boom".toList) :=
  ⟨rfl, rfl, rfl, by decide⟩

/-- Claim C4 (amended): for all three `_call_llm` loops, an error classified as
overload or rate-limit is retried with exponential backoff 2, 4, 8, ... capped
at 60 seconds for up to 10 attempts, and any other error is retried at most 3
times with linear backoff 2, 4, 6; on exhaustion the story-bible loop raises
`ExtractionError` while the converter and breakdown loops re-raise the original
error. -/
theorem c4_retry_policy (oracle : Nat → CallResult) (msg : Chars)
    (horacle : ∀ a, oracle a = CallResult.failure msg) :
    ((isOverload msg || isRateLimit msg) = true →
      storyCallLlm oracle =
        (LlmOutcome.extractionError msg, [2, 4, 8, 16, 32, 60, 60, 60, 60]) ∧
      converterCallLlm oracle =
        (LlmOutcome.reraised msg, [2, 4, 8, 16, 32, 60, 60, 60, 60]) ∧
      breakdownCallLlm oracle =
        (LlmOutcome.reraised msg, [2, 4, 8, 16, 32, 60, 60, 60, 60])) ∧
    ((isOverload msg || isRateLimit msg) = false →
      storyCallLlm oracle = (LlmOutcome.extractionError msg, [2, 4, 6]) ∧
      converterCallLlm oracle = (LlmOutcome.reraised msg, [2, 4, 6]) ∧
      breakdownCallLlm oracle = (LlmOutcome.reraised msg, [2, 4, 6])) := by
  constructor
  · intro h
    refine ⟨?_, ?_, ?_⟩
    · norm_num [storyCallLlm, storyAttempts, horacle, h]
    · norm_num [converterCallLlm, converterAttempts, horacle, h]
    · norm_num [breakdownCallLlm, breakdownAttempts, horacle, h]
  · intro h
    refine ⟨?_, ?_, ?_⟩
    · norm_num [storyCallLlm, storyAttempts, horacle, h]
    · norm_num [converterCallLlm, converterAttempts, horacle, h]
    · norm_num [breakdownCallLlm, breakdownAttempts, horacle, h]

theorem c4_retry_policy_witness :
    storyCallLlm (fun _ => CallResult.failure ("overloaded_error".toList)) =
      (LlmOutcome.extractionError ("overloaded_error".toList),
        [2, 4, 8, 16, 32, 60, 60, 60, 60]) :=
  ((c4_retry_policy (fun _ => CallResult.failure ("overloaded_error".toList))
      ("overloaded_error".toList) (fun _ => rfl)).1 (by decide)).1

/-! ## Claim C6: character extraction and merge threshold -/

/-- `CharacterProfile` (src/extraction/models.py lines 7-17), restricted to its
required string fields. -/
structure CharacterProfile where
  name : Chars
  role : Chars
  physical_description : Chars
  personality : Chars
  backstory_summary : Chars
deriving DecidableEq

/-- `CharacterProfile(**p)`: succeeds exactly when the required string fields
are present. -/
def profileFromJson : Json → Option CharacterProfile
  | Json.obj o =>
    match jsonGet o ("name".toList), jsonGet o ("role".toList),
          jsonGet o ("physical_description".toList), jsonGet o ("personality".toList),
          jsonGet o ("backstory_summary".toList) with
    | some (Json.str a), some (Json.str b), some (Json.str c), some (Json.str d),
      some (Json.str e) => some ⟨a, b, c, d, e⟩
    | _, _, _, _, _ => none
  | _ => none

/-- `[CharacterProfile(**p) for p in merged_data]`: all-or-nothing. -/
def profilesAll : JsonArr → Option (List CharacterProfile)
  | JsonArr.nil => some []
  | JsonArr.cons j rest =>
    match profileFromJson j with
    | none => none
    | some p => (profilesAll rest).map (p :: ·)

/-- `StoryBibleExtractor._merge_duplicate_characters` (story_bible_extractor.py
lines 417-445), over the text the merge LLM call returned; the second component
counts merge LLM calls issued. At most 5 profiles: immediate return, no call.
Otherwise one call; if its output fails to parse or validate, the unmerged list
is returned. -/
def mergeDuplicateCharacters (profiles : List CharacterProfile)
    (mergeResult : Chars) : List CharacterProfile × Nat :=
  if profiles.length ≤ 5 then (profiles, 0)
  else
    match jsonParse mergeResult with
    | some (Json.arr a) =>
      match profilesAll a with
      | some merged => (merged, 1)
      | none => (profiles, 1)
    | _ => (profiles, 1)

/-- Claim C6: at most 5 profiles issue no merge call and come back unchanged;
more than 5 issue exactly one call; a merge output that fails to parse or
validate keeps the unmerged list instead of raising. -/
theorem c6_merge_threshold (profiles : List CharacterProfile) (mergeResult : Chars) :
    (profiles.length ≤ 5 →
      mergeDuplicateCharacters profiles mergeResult = (profiles, 0)) ∧
    (5 < profiles.length →
      (mergeDuplicateCharacters profiles mergeResult).2 = 1) ∧
    (5 < profiles.length → jsonParse mergeResult = none →
      (mergeDuplicateCharacters profiles mergeResult).1 = profiles) ∧
    (5 < profiles.length → ∀ a, jsonParse mergeResult = some (Json.arr a) →
      profilesAll a = none →
      (mergeDuplicateCharacters profiles mergeResult).1 = profiles) := by
  refine ⟨?_, ?_, ?_, ?_⟩
  · intro h
    simp [mergeDuplicateCharacters, h]
  · intro h
    have h5 : ¬(profiles.length ≤ 5) := by omega
    unfold mergeDuplicateCharacters
    rw [if_neg h5]
    cases hp : jsonParse mergeResult with
    | none => rfl
    | some j =>
      cases j with
      | arr a =>
        cases hpa : profilesAll a <;> simp [hpa]
      | null => rfl
      | bool b => rfl
      | num i => rfl
      | str s => rfl
      | obj o => rfl
  · intro h hparse
    have h5 : ¬(profiles.length ≤ 5) := by omega
    simp [mergeDuplicateCharacters, h5, hparse]
  · intro h a hparse hpa
    have h5 : ¬(profiles.length ≤ 5) := by omega
    simp [mergeDuplicateCharacters, h5, hparse, hpa]

theorem c6_merge_threshold_witness :
    mergeDuplicateCharacters
        (List.replicate 2 (⟨[], [], [], [], []⟩ : CharacterProfile)) ("no".toList) =
      (List.replicate 2 (⟨[], [], [], [], []⟩ : CharacterProfile), 0) ∧
    (mergeDuplicateCharacters
        (List.replicate 6 (⟨[], [], [], [], []⟩ : CharacterProfile)) ("no".toList)).2 = 1 ∧
    (mergeDuplicateCharacters
        (List.replicate 6 (⟨[], [], [], [], []⟩ : CharacterProfile)) ("no".toList)).1 =
      List.replicate 6 (⟨[], [], [], [], []⟩ : CharacterProfile) :=
  ⟨(c6_merge_threshold (List.replicate 2 ⟨[], [], [], [], []⟩) ("no".toList)).1 (by decide),
    (c6_merge_threshold (List.replicate 6 ⟨[], [], [], [], []⟩) ("no".toList)).2.1 (by decide),
    (c6_merge_threshold (List.replicate 6 ⟨[], [], [], [], []⟩) ("no".toList)).2.2.1
      (by decide) (by decide)⟩

/-! ## Claim C2: per-stage checkpointing and resumability -/

/-- The six sub-stage keys of `StoryBibleExtractor.extract`
(story_bible_extractor.py lines 79-186), in execution order. -/
def extractKeys : List Chars :=
  ["characters".toList, "locations".toList, "tone".toList, "plot".toList,
    "world_rules".toList, "timeline".toList]

/-- The resume skeleton of `StoryBibleExtractor.extract`: walks the sub-stage
keys with the `checkpoint_data` variable (`none` for a falsy value) and the key
set persisted in the checkpoint file. A hydrated sub-stage costs nothing; a
recomputed one costs one LLM sub-stage and saves — the first sub-stage's save
overwrites the file, the later ones reload, update and save. Returns the number
of recomputed sub-stages and the file's final key set. -/
def extractRun : Option (List Chars) → List Chars → Bool → List Chars → Nat × List Chars
  | _, file, _, [] => (0, file)
  | cpVar, file, isFirst, k :: rest =>
    let hyd := match cpVar with
      | some keys => keys.contains k
      | none => false
    if hyd then extractRun cpVar file false rest
    else if isFirst then
      let r := extractRun cpVar [k] false rest
      (r.1 + 1, r.2)
    else
      let file2 := if file.contains k then file else file ++ [k]
      let r := extractRun (some file2) file2 false rest
      (r.1 + 1, r.2)

/-- What `ScreenplayConverter.convert` finds in its checkpoint (converter.py
lines 135-155): whether `act_structure` is present, whether `scenes` is
present, and the stored `last_processed_chunk_idx` if any (`.get` default 0). -/
structure ConvertCp where
  has_act : Bool
  has_scenes : Bool
  last_processed_chunk_idx : Option Nat
deriving DecidableEq

/-- LLM calls made by `ScreenplayConverter.convert` (converter.py lines
135-211): one act-structure call unless hydrated, then one chunk-conversion
call per index from `start_chunk_idx` to the last chunk. -/
def convertLlmCalls (total_chunks : Nat) (cp : Option ConvertCp) : Nat :=
  (match cp with
   | some c => if c.has_act then 0 else 1
   | none => 1) +
  (total_chunks -
    (match cp with
     | some c =>
       if c.has_scenes then (c.last_processed_chunk_idx.getD 0) + 1 else 0
     | none => 0))

/-- `SceneBreakdownExtractor.process_all_scenes` (scene_breakdown.py lines
39-65) over the responses oracle: one `process_scene` LLM call per scene, a
failure propagating immediately; second component is the LLM call count. The
signature has no checkpoint at all. -/
def processAllScenesGo (oracle : Nat → Chars) :
    List ScreenplayScene → Nat → Option (List SceneBreakdown) × Nat
  | [], calls => (some [], calls)
  | scene :: rest, calls =>
    match processScene scene (oracle calls) with
    | none => (none, calls + 1)
    | some b =>
      let r := processAllScenesGo oracle rest (calls + 1)
      (r.1.map (b :: ·), r.2)

def processAllScenes (oracle : Nat → Chars) (scenes : List ScreenplayScene) :
    Option (List SceneBreakdown) × Nat :=
  processAllScenesGo oracle scenes 0

theorem processAllScenesGo_calls (oracle : Nat → Chars)
    (scenes : List ScreenplayScene) : ∀ (c : Nat),
    (processAllScenesGo oracle scenes c).1.isSome = true →
    (processAllScenesGo oracle scenes c).2 = c + scenes.length := by
  induction scenes with
  | nil => intro c _; simp [processAllScenesGo]
  | cons s rest ih =>
    intro c h
    unfold processAllScenesGo at h ⊢
    cases hps : processScene s (oracle c) with
    | none => rw [hps] at h; simp at h
    | some b =>
      rw [hps] at h
      simp at h
      have h2 := ih (c + 1) h
      simp [h2]
      omega

/-- A parseable scene-breakdown response carrying a full composition. -/
def c2Resp : Chars :=
  ("\x7b\"composition\":\x7b\"key_moment_description\":\"x\",\"foreground\":\"x\",\"midground\":\"x\",\"background\":\"x\",\"lighting\":\"x\",\"camera_movement\":\"x\",\"colour_palette\":\"x\"\x7d\x7d").toList

set_option maxRecDepth 40000 in
/-- Claim C2 does not hold for the scene-breakdown stage:
`process_all_scenes` takes no checkpoint and persists nothing, so a run —
including a re-run after an interruption or after a completed prior run —
always issues one LLM call per scene. Here a successful three-scene run costs
three calls, and nothing in the function's inputs can carry prior progress. -/
theorem c2_counterexample :
    (processAllScenes (fun _ => c2Resp)
        (List.replicate 3 ⟨[], 1, [], [], [], []⟩)).1.isSome = true ∧
    (processAllScenes (fun _ => c2Resp)
        (List.replicate 3 ⟨[], 1, [], [], [], []⟩)).2 = 3 ∧
    (processAllScenes (fun _ => c2Resp)
        (List.replicate 3 ⟨[], 1, [], [], [], []⟩)).2 ≠ 0 := by
  refine ⟨by decide, by decide, by decide⟩

/-- Claim C2 (amended): the Story Bible extraction and screenplay conversion
stages are checkpointed and resumable — a snapshot holding the first n
sub-stage keys leaves only the remaining 6 - n to recompute, a converter
checkpoint with the act structure and scenes through chunk `last` leaves only
the later chunks — but the scene-breakdown stage is not: `process_all_scenes`
has no checkpoint, and any successful run issues exactly one LLM call per
scene. -/
theorem c2_stage_resumability :
    (∀ n : Nat, n ≤ 6 →
      (extractRun (some (extractKeys.take n)) (extractKeys.take n) true
        extractKeys).1 = 6 - n) ∧
    (extractRun none [] true extractKeys).1 = 6 ∧
    (∀ total last : Nat,
      convertLlmCalls total (some ⟨true, true, some last⟩) = total - (last + 1)) ∧
    (∀ total : Nat, convertLlmCalls total none = 1 + total) ∧
    (∀ (oracle : Nat → Chars) (scenes : List ScreenplayScene),
      (processAllScenes oracle scenes).1.isSome = true →
      (processAllScenes oracle scenes).2 = scenes.length) := by
  refine ⟨?_, by decide, ?_, ?_, ?_⟩
  · intro n hn
    interval_cases n <;> decide
  · intro total last
    simp [convertLlmCalls]
  · intro total
    simp [convertLlmCalls]
  · intro oracle scenes h
    have h2 := processAllScenesGo_calls oracle scenes 0 h
    simpa using h2

theorem c2_stage_resumability_witness :
    (extractRun (some (extractKeys.take 6)) (extractKeys.take 6) true
      extractKeys).1 = 6 - 6 ∧
    (processAllScenes (fun _ => c2Resp) []).2 = ([] : List ScreenplayScene).length :=
  ⟨c2_stage_resumability.1 6 (by decide),
    c2_stage_resumability.2.2.2.2 (fun _ => c2Resp) [] rfl⟩
